import Mathlib

set_option maxRecDepth 8000

/-!
Verification of the link-graph audit engine in `src/audit.py`.

Modelling conventions (shallow embedding):
* Python strings are `Str := List Char`; literals are written with `.toList`.
* All file paths are modelled relative to `ROOT_DIR`, so `os.path.relpath p ROOT_DIR`
  is the identity and `os.path.join ROOT_DIR p` is `p`.
* The file system, the per-document read/parse step (`open` + `BeautifulSoup`)
  and the network probe (`requests.head`) are an abstract `World` record; a parsed
  document is reduced to the data the auditor queries: its `h1` count, whether it
  has an `application/ld+json` script, and its anchor `href` list in order.
* `SEOAuditor` mirrors the Python class state.  Two extra history fields record
  observable events that the Python code prints as it runs but does not store:
  `penalty_log` (the penalty printed by `_add_issue`, line 223) and `probe_log`
  (one entry per `requests.head` issued in `check_external_links`).
* The concurrent external check is deterministic here: the set of external links
  is kept in insertion order and probed in that order.  The properties proved
  below do not depend on the completion order of probes.
-/

namespace Audit

/-- Python strings are modelled as lists of characters. -/
abbrev Str := List Char

/-- Python `str.startswith`: `isPre p s` iff `s` starts with `p`. -/
def isPre : Str → Str → Bool
  | [], _ => true
  | _ :: _, [] => false
  | a :: p, b :: s => if a = b then isPre p s else false

/-- Python `str.endswith`. -/
def isSuf (suf s : Str) : Bool := isPre suf.reverse s.reverse

/-- Python substring test (`needle in hay`). -/
def isSub (p : Str) : Str → Bool
  | [] => isPre p []
  | b :: t => isPre p (b :: t) || isSub p t

/-- Python `str.strip()` (trim whitespace at both ends). -/
def pyStrip (s : Str) : Str :=
  ((s.dropWhile Char.isWhitespace).reverse.dropWhile Char.isWhitespace).reverse

/-- The character for a decimal digit `n < 10`. -/
def digitChar (n : Nat) : Char := Char.ofNat (48 + n)

/-- Decimal digits of a natural number, with explicit fuel so that the kernel
can evaluate it on concrete inputs. -/
def natDigitsAux : Nat → Nat → Str
  | 0, _ => []
  | fuel + 1, n =>
    if n < 10 then [digitChar n] else natDigitsAux fuel (n / 10) ++ [digitChar (n % 10)]

/-- Decimal rendering of a natural number (Python `str(int)` in an f-string). -/
def natStr (n : Nat) : Str := natDigitsAux (n + 1) n

/-! String literals used by `audit.py`. -/

def errorLit : Str := "ERROR".toList
def warnLit : Str := "WARN".toList
def globalLit : Str := "GLOBAL".toList
def indexLit : Str := "index.html".toList
def htmlExtLit : Str := ".html".toList
def htmExtLit : Str := ".htm".toList
def httpLit : Str := "http://".toList
def httpsLit : Str := "https://".toList
def failMsgLit : Str := "Failed to process file: ".toList
def missingH1Lit : Str := "Missing <h1> tag".toList
def multiH1Lit : Str := "Multiple <h1> tags found".toList
def schemaLit : Str := "Missing Schema (application/ld+json)".toList
def absMsgLit : Str := "Internal link uses absolute URL: ".toList
def extMsgLit : Str := "Link contains .html extension: ".toList
def relMsgLit : Str := "Link uses relative path: ".toList
def deadMsgLit : Str := "Dead link detected: ".toList
def orphanLit : Str := "Orphan page (0 inbound links)".toList
def extDeadLit : Str := "External dead link (".toList
def extDeadMidLit : Str := "): ".toList
def extFailLit : Str := "External check failed: ".toList
def extFailMidLit : Str := " (".toList
def extFailEndLit : Str := ")".toList

/-- Models `f"Dead link detected: {href}"` (line 169). -/
def deadMsg (href : Str) : Str := deadMsgLit ++ href

/-- Models `f"External dead link ({code}): {url}"` (line 196). -/
def extDeadMsg (code : Nat) (url : Str) : Str :=
  extDeadLit ++ natStr code ++ extDeadMidLit ++ url

/-- Models `f"External check failed: {url} ({exc})"` (line 198). -/
def extFailMsg (url exc : Str) : Str :=
  extFailLit ++ url ++ extFailMidLit ++ exc ++ extFailEndLit

/-- Models `AuditConfig` (lines 17-61).  `base_url = []` models Python `None` (and the
empty string), which are falsy in every use the auditor makes of `base_url`. -/
structure AuditConfig where
  base_url : Str
  keywords : List Str
  ignore_paths : List Str
  ignore_urls : List Str
  ignore_files : List Str
deriving DecidableEq

/-- The fixed `ignore_paths` list from `AuditConfig.__init__` (line 21). -/
def defaultIgnorePaths : List Str :=
  [".git".toList, "node_modules".toList, "__pycache__".toList, ".DS_Store".toList]

/-- The fixed `ignore_urls` list from `AuditConfig.__init__` (line 22). -/
def defaultIgnoreUrls : List Str :=
  ["/go/".toList, "cdn-cgi".toList, "javascript:".toList, "mailto:".toList,
   "#".toList, "tel:".toList]

/-- The fixed `ignore_files` list from `AuditConfig.__init__` (line 23). -/
def defaultIgnoreFiles : List Str := ["google".toList, "404.html".toList]

/-- Models `AuditConfig.__init__` (lines 18-24): the ignore lists are fixed constants;
only `base_url` and `keywords` vary with the contents of `index.html`
(`_load_from_index`, whose HTML parsing is outside the audit engine). -/
def mkConfig (base : Str) (kw : List Str) : AuditConfig :=
  ⟨base, kw, defaultIgnorePaths, defaultIgnoreUrls, defaultIgnoreFiles⟩

/-- Models `AuditConfig.should_ignore_url` (lines 60-61):
`any(url.startswith(ignore) or ignore in url for ignore in self.ignore_urls)`. -/
def should_ignore_url (cfg : AuditConfig) (url : Str) : Bool :=
  cfg.ignore_urls.any (fun ig => isPre ig url || isSub ig url)

/-- Models `AuditConfig.should_ignore_file` (lines 57-58). -/
def should_ignore_file (cfg : AuditConfig) (fn : Str) : Bool :=
  cfg.ignore_files.any (fun ig => isSub ig fn)

/-- What the auditor observes of a parsed document (`BeautifulSoup` result):
the number of `h1` tags, presence of an `application/ld+json` script, and the
ordered list of anchor `href` attributes (`soup.find_all('a', href=True)`). -/
structure Doc where
  h1Count : Nat
  hasSchema : Bool
  hrefs : List Str
deriving DecidableEq

/-- The environment of a run: file-system queries on ROOT-relative paths,
the read+parse step per document (`.error` = the exception caught at line 116),
and the network probe per URL (`.error` = the exception caught at line 197). -/
structure World where
  isFile : Str → Bool
  isDir : Str → Bool
  docs : Str → Except Str Doc
  probe : Str → Except Str Nat

/-- One recorded issue: exactly the dictionary appended at lines 216-220,
which has the keys `level`, `message` and `context` (and no others). -/
structure Issue where
  level : Str
  message : Str
  context : Str
deriving DecidableEq

/-- The `SEOAuditor` state (lines 64-70) plus the two history fields
`penalty_log` and `probe_log` described in the header. -/
structure SEOAuditor where
  files : List Str
  internal_links : List (Str × List Str)
  external_links : List Str
  score : Int
  issues : List Issue
  penalty_log : List Int
  probe_log : List Str
deriving DecidableEq

/-- Models `SEOAuditor.__init__` (lines 64-70) with the discovered file list
(`scan_files` is directory traversal, supplied here as an input). -/
def initAuditor (files : List Str) : SEOAuditor :=
  ⟨files, [], [], 100, [], [], []⟩

/-- Models `SEOAuditor._add_issue` (lines 215-223): append the three-field record,
apply the penalty to the running score.  The penalty is also pushed on the
history log (the code prints it at line 223 but does not store it). -/
def add_issue (st : SEOAuditor) (level message context : Str) (penalty : Int) : SEOAuditor :=
  { st with
    issues := st.issues ++ [⟨level, message, context⟩],
    score := st.score + penalty,
    penalty_log := st.penalty_log ++ [penalty] }

/-- Models `href.split('#')[0].split('?')[0]` (line 146): the prefix of the href
before the first `#` or `?`. -/
def stripFragQuery (href : Str) : Str :=
  href.takeWhile (fun c => c != '#' && c != '?')

/-- Python `str.startswith('/')`. -/
def startsSlash (s : Str) : Bool := isPre (['/']) s

/-- Models `os.path.dirname`, ROOT-relative: everything before the last `/`
(`[]`, i.e. ROOT itself, when the path has no slash). -/
def dirname (p : Str) : Str :=
  if ('/') ∈ p then ((p.reverse.dropWhile (fun c => c != '/')).tail).reverse else []

/-- Models `os.path.join` on ROOT-relative paths (second argument never absolute
where the auditor calls it). -/
def joinPath (d p : Str) : Str :=
  if d = [] then p
  else if d.getLast? = some '/' then d ++ p
  else d ++ '/' :: p

/-- Lines 146-153: resolve the cleaned href to a ROOT-relative local path:
a root-relative href is taken from ROOT (after `lstrip('/')`), otherwise it is
joined to the source document's directory. -/
def localTarget (href source_path : Str) : Str :=
  let target := stripFragQuery href
  if startsSlash target then target.dropWhile (fun c => c == '/')
  else joinPath (dirname source_path) target

/-- Lines 155-166: the three existence checks, in order — direct file,
`.html` appended, directory containing `index.html`. -/
def linkExists (w : World) (lt : Str) : Bool :=
  w.isFile lt || w.isFile (lt ++ htmlExtLit) ||
    (w.isDir lt && w.isFile (joinPath lt indexLit))

/-- Lines 173-179: recompute which of the three checks succeeded and return
the canonical ROOT-relative path of the actual file found. -/
def normalizedKey (w : World) (lt : Str) : Option Str :=
  if w.isFile lt then some lt
  else if w.isFile (lt ++ htmlExtLit) then some (lt ++ htmlExtLit)
  else if w.isDir lt && w.isFile (joinPath lt indexLit) then some (joinPath lt indexLit)
  else none

/-- Lines 182-184: `internal_links` is a dict target → list of sources;
insert creates the key with `[]` if absent, then appends the source. -/
def graphInsert : List (Str × List Str) → Str → Str → List (Str × List Str)
  | [], k, src => [(k, [src])]
  | e :: rest, k, src =>
    if e.1 = k then (e.1, e.2 ++ [src]) :: rest else e :: graphInsert rest k src

/-- Dict lookup in `internal_links` (`rel_path in self.internal_links`). -/
def graphLookup : List (Str × List Str) → Str → Option (List Str)
  | [], _ => none
  | e :: rest, k => if e.1 = k then some e.2 else graphLookup rest k

/-- The two style warnings at the head of `_analyze_internal_link`
(lines 133-142): extension in link, relative link. -/
def styleWarns (href source_path : Str) (st : SEOAuditor) : SEOAuditor :=
  let st1 :=
    if isSuf htmlExtLit href || isSuf htmExtLit href then
      add_issue st warnLit (extMsgLit ++ href) source_path (-2)
    else st
  if !startsSlash href then
    add_issue st1 warnLit (relMsgLit ++ href) source_path (-2)
  else st1

/-- Models `SEOAuditor._analyze_internal_link` (lines 132-184): style warnings, then
the dead-link check, then recording in the graph. -/
def analyze_internal_link (w : World) (href source_path : Str) (st : SEOAuditor) : SEOAuditor :=
  let st2 := styleWarns href source_path st
  let lt := localTarget href source_path
  if !linkExists w lt then
    add_issue st2 errorLit (deadMsg href) source_path (-10)
  else
    match normalizedKey w lt with
    | some k => { st2 with internal_links := graphInsert st2.internal_links k source_path }
    | none => st2

/-- Models `SEOAuditor._check_semantics` (lines 119-130). -/
def check_semantics (doc : Doc) (rel_path : Str) (st : SEOAuditor) : SEOAuditor :=
  let st1 :=
    if doc.h1Count = 0 then add_issue st errorLit missingH1Lit rel_path (-5)
    else if 1 < doc.h1Count then add_issue st warnLit multiH1Lit rel_path (-2)
    else st
  if !doc.hasSchema then add_issue st1 warnLit schemaLit rel_path (-2) else st1

/-- Python `set.add` on the external-link set, kept in insertion order. -/
def setAdd (l : List Str) (u : Str) : List Str := if u ∈ l then l else l ++ [u]

/-- The body of the link loop in `audit_file` (lines 95-114), for one anchor. -/
def processHref (w : World) (cfg : AuditConfig) (rel_path : Str) (st : SEOAuditor)
    (raw : Str) : SEOAuditor :=
  let href := pyStrip raw
  if href.isEmpty || should_ignore_url cfg href then st
  else if isPre httpLit href || isPre httpsLit href then
    if !cfg.base_url.isEmpty && isPre cfg.base_url href then
      let path := href.drop cfg.base_url.length
      let st1 := analyze_internal_link w path rel_path st
      add_issue st1 warnLit (absMsgLit ++ href) rel_path (-2)
    else
      { st with external_links := setAdd st.external_links href }
  else analyze_internal_link w href rel_path st

/-- Models `SEOAuditor.audit_file` (lines 83-117): on a read/parse failure the only
effect is the single ERROR issue (penalty 0); otherwise semantics checks then
the link loop. -/
def audit_file (w : World) (cfg : AuditConfig) (filepath : Str) (st : SEOAuditor) : SEOAuditor :=
  match w.docs filepath with
  | .error e => add_issue st errorLit (failMsgLit ++ e) filepath 0
  | .ok doc =>
    let st1 := check_semantics doc filepath st
    doc.hrefs.foldl (processHref w cfg filepath) st1

/-- One iteration of the loop in `check_orphans` (lines 207-213). -/
def orphanStep (cfg : AuditConfig) (st : SEOAuditor) (file : Str) : SEOAuditor :=
  if file = indexLit ∨ should_ignore_file cfg file = true then st
  else if (graphLookup st.internal_links file).isSome then st
  else add_issue st warnLit orphanLit file (-5)

/-- Models `SEOAuditor.check_orphans` (lines 205-213): a pure post-pass over the
discovered files against the completed graph. -/
def check_orphans (cfg : AuditConfig) (st : SEOAuditor) : SEOAuditor :=
  st.files.foldl (orphanStep cfg) st

/-- One completed future in `check_external_links` (lines 191-198); the probe
itself is logged in `probe_log`. -/
def externalStep (w : World) (st : SEOAuditor) (url : Str) : SEOAuditor :=
  let st1 := { st with probe_log := st.probe_log ++ [url] }
  match w.probe url with
  | .ok code =>
    if 400 ≤ code then add_issue st1 errorLit (extDeadMsg code url) globalLit (-5) else st1
  | .error exc => add_issue st1 warnLit (extFailMsg url exc) globalLit 0

/-- Models `SEOAuditor.check_external_links` (lines 186-198), one probe per element
of the deduplicated set. -/
def check_external_links (w : World) (st : SEOAuditor) : SEOAuditor :=
  st.external_links.foldl (externalStep w) st

/-- The per-document loop of `main` (lines 259-260). -/
def audit_phase (w : World) (cfg : AuditConfig) (files : List Str) (st : SEOAuditor) : SEOAuditor :=
  files.foldl (fun s f => audit_file w cfg f s) st

/-- Models `main` (lines 253-265): audit every file, then orphans, then externals. -/
def run_audit (w : World) (cfg : AuditConfig) (files : List Str) : SEOAuditor :=
  check_external_links w (check_orphans cfg (audit_phase w cfg files (initAuditor files)))

/-- Models `generate_report` (lines 225-226): the floor at 0 is applied exactly here. -/
def generate_report (st : SEOAuditor) : SEOAuditor := { st with score := max 0 st.score }

/-- Number of occurrences of a given issue record in the issue list. -/
def countIssue (i : Issue) : List Issue → Nat
  | [] => 0
  | j :: t => (if j = i then 1 else 0) + countIssue i t

/-- Number of occurrences of a string in a list of strings. -/
def countStr (u : Str) : List Str → Nat
  | [] => 0
  | v :: t => (if v = u then 1 else 0) + countStr u t

/-- The running score minus the total logged penalty; `scoreGap` is 100 at the
start of a run and is preserved by every operation of the engine. -/
def scoreGap (st : SEOAuditor) : Int := st.score - st.penalty_log.sum

/-- Inbound-source list of a graph key (`[]` when the key is absent). -/
def sourcesAt (g : List (Str × List Str)) (k : Str) : List Str :=
  (graphLookup g k).getD []

/-- Invariant of the internal-link graph: every key is an existing file and has
at least one recorded inbound source. -/
def KeysOK (w : World) (g : List (Str × List Str)) : Prop :=
  ∀ e ∈ g, w.isFile e.1 = true ∧ e.2 ≠ []

/-- Well-formedness of one recorded issue within a run over `files`. -/
def IssueWF (files : List Str) (i : Issue) : Prop :=
  (i.level = errorLit ∨ i.level = warnLit) ∧
  (i.context = globalLit ∨ i.context ∈ files)

/-- All penalties recorded so far are among the four constants the code uses. -/
def PenVals (st : SEOAuditor) : Prop :=
  ∀ p ∈ st.penalty_log, p = 0 ∨ p = -2 ∨ p = -5 ∨ p = -10

/-- A sequence of internal-link analyses: each element is a
(source document, href) pair fed to `_analyze_internal_link`. -/
def analyzeFold (w : World) (L : List (Str × Str)) (st : SEOAuditor) : SEOAuditor :=
  L.foldl (fun s p => analyze_internal_link w p.2 p.1 s) st

/-! A small concrete site used to instantiate theorems with hypotheses. -/

/-- Files of the concrete test site. -/
def fsFiles : List Str :=
  ["index.html".toList, "a.html".toList, "b.html".toList, "c.html".toList]

/-- Concrete world: four pages; `a.html` links to `/b` (resolved by appending
`.html`), one external URL answering 404, and the dead `/missing`; `c.html`
fails to parse. -/
def w0 : World where
  isFile := fun p => decide (p ∈ fsFiles)
  isDir := fun _ => false
  docs := fun p =>
    if p = "index.html".toList then .ok ⟨1, true, ["/a.html".toList]⟩
    else if p = "a.html".toList then
      .ok ⟨1, true, ["/b".toList, "https://ext.example/x".toList, "/missing".toList]⟩
    else if p = "b.html".toList then .ok ⟨1, true, []⟩
    else .error ("boom".toList)
  probe := fun u => if u = "https://ext.example/x".toList then .ok 404 else .error ("timeout".toList)

/-- Concrete configuration: no base URL, no keywords, default ignore lists. -/
def cfg0 : AuditConfig := mkConfig [] []

/-- The initial auditor state for the concrete site. -/
def st0 : SEOAuditor := initAuditor fsFiles

/-- The completed concrete run. -/
def R0 : SEOAuditor := run_audit w0 cfg0 fsFiles

/-- A world exercising the three probe outcomes: status 200, status 404, and
a transport failure. -/
def wp : World where
  isFile := fun _ => false
  isDir := fun _ => false
  docs := fun _ => .error ("unreadable".toList)
  probe := fun u =>
    if u = "https://ok.example/".toList then .ok 200
    else if u = "https://bad.example/".toList then .ok 404
    else .error ("timeout".toList)

/-! ### Generic counting and list lemmas -/

lemma countIssue_append (i : Issue) (l1 l2 : List Issue) :
    countIssue i (l1 ++ l2) = countIssue i l1 + countIssue i l2 := by
  induction l1 with
  | nil => simp [countIssue]
  | cons j t ih => simp only [List.cons_append, countIssue, List.append_eq, ih]; omega

lemma countStr_append (u : Str) (l1 l2 : List Str) :
    countStr u (l1 ++ l2) = countStr u l1 + countStr u l2 := by
  induction l1 with
  | nil => simp [countStr]
  | cons v t ih => simp only [List.cons_append, countStr, List.append_eq, ih]; omega

lemma countStr_eq_zero (u : Str) (l : List Str) (h : u ∉ l) : countStr u l = 0 := by
  induction l with
  | nil => rfl
  | cons v t ih =>
    simp only [List.mem_cons] at h
    push_neg at h
    rw [countStr, if_neg (fun he => h.1 he.symm), ih h.2]

lemma countStr_eq_one (u : Str) (l : List Str) (hn : l.Nodup) (hm : u ∈ l) :
    countStr u l = 1 := by
  induction l with
  | nil => cases hm
  | cons v t ih =>
    rcases List.nodup_cons.1 hn with ⟨hv, ht⟩
    rcases List.mem_cons.1 hm with h | h
    · rw [countStr, if_pos h.symm, countStr_eq_zero u t (h ▸ hv)]
    · have hvu : ¬ v = u := fun he => hv (he ▸ h)
      rw [countStr, if_neg hvu, ih ht h]

lemma ne_of_head {l1 l2 : Str} (h : l1.head? ≠ l2.head?) : l1 ≠ l2 :=
  fun he => h (he ▸ rfl)

lemma ne_of_head_vals {l1 l2 : Str} {a b : Char} (h1 : l1.head? = some a)
    (h2 : l2.head? = some b) (hab : a ≠ b) : l1 ≠ l2 := by
  intro he
  rw [he, h2] at h1
  exact hab (Option.some.inj h1).symm

lemma mk_ne_of_msg {l m c : Str} {i : Issue} (h : m ≠ i.message) :
    Issue.mk l m c ≠ i :=
  fun he => h (congrArg Issue.message he)

lemma mk_ne_of_level {l m c : Str} {i : Issue} (h : l ≠ i.level) :
    Issue.mk l m c ≠ i :=
  fun he => h (congrArg Issue.level he)

lemma mk_ne_of_ctx {l m c : Str} {i : Issue} (h : c ≠ i.context) :
    Issue.mk l m c ≠ i :=
  fun he => h (congrArg Issue.context he)

lemma sum_map_neg (l : List Int) : (l.map (fun p => -p)).sum = -l.sum := by
  induction l with
  | nil => simp
  | cons p t ih => simp [ih]; omega

lemma foldl_proj {α X : Type} (g : SEOAuditor → X) (f : SEOAuditor → α → SEOAuditor)
    (l : List α) (h : ∀ st a, g (f st a) = g st) : ∀ st, g (l.foldl f st) = g st := by
  induction l with
  | nil => intro st; rfl
  | cons a t ih => intro st; rw [List.foldl_cons, ih, h]

lemma foldl_inv {α : Type} (P : SEOAuditor → Prop) (f : SEOAuditor → α → SEOAuditor)
    (l : List α) (h : ∀ st a, P st → P (f st a)) : ∀ st, P st → P (l.foldl f st) := by
  induction l with
  | nil => intro st hp; exact hp
  | cons a t ih => intro st hp; exact ih _ (h _ _ hp)

/-! ### `add_issue` facts -/

lemma add_issue_files (st : SEOAuditor) (l m c : Str) (p : Int) :
    (add_issue st l m c p).files = st.files := rfl

lemma add_issue_links (st : SEOAuditor) (l m c : Str) (p : Int) :
    (add_issue st l m c p).internal_links = st.internal_links := rfl

lemma add_issue_ext (st : SEOAuditor) (l m c : Str) (p : Int) :
    (add_issue st l m c p).external_links = st.external_links := rfl

lemma add_issue_probe (st : SEOAuditor) (l m c : Str) (p : Int) :
    (add_issue st l m c p).probe_log = st.probe_log := rfl

lemma add_issue_gap (st : SEOAuditor) (l m c : Str) (p : Int) :
    scoreGap (add_issue st l m c p) = scoreGap st := by
  simp only [scoreGap, add_issue, List.sum_append, List.sum_cons, List.sum_nil]
  omega

lemma count_add (i : Issue) (st : SEOAuditor) (l m c : Str) (p : Int) :
    countIssue i (add_issue st l m c p).issues
      = countIssue i st.issues + (if Issue.mk l m c = i then 1 else 0) := by
  simp [add_issue, countIssue_append, countIssue]

lemma count_add_ne {i : Issue} {l m c : Str} (st : SEOAuditor) (p : Int)
    (h : Issue.mk l m c ≠ i) :
    countIssue i (add_issue st l m c p).issues = countIssue i st.issues := by
  rw [count_add, if_neg h, Nat.add_zero]

/-! ### Per-operation preservation lemmas -/

lemma analyze_pres (w : World) (href sp : Str) (st : SEOAuditor) :
    (analyze_internal_link w href sp st).files = st.files ∧
    (analyze_internal_link w href sp st).external_links = st.external_links ∧
    (analyze_internal_link w href sp st).probe_log = st.probe_log ∧
    scoreGap (analyze_internal_link w href sp st) = scoreGap st := by
  simp only [analyze_internal_link, styleWarns]
  refine ⟨?_, ?_, ?_, ?_⟩ <;>
    (split_ifs <;> (try split) <;>
      simp [add_issue, scoreGap, List.sum_append] <;> try omega)

lemma analyze_files (w : World) (href sp : Str) (st : SEOAuditor) :
    (analyze_internal_link w href sp st).files = st.files :=
  (analyze_pres w href sp st).1

lemma analyze_ext (w : World) (href sp : Str) (st : SEOAuditor) :
    (analyze_internal_link w href sp st).external_links = st.external_links :=
  (analyze_pres w href sp st).2.1

lemma analyze_probe (w : World) (href sp : Str) (st : SEOAuditor) :
    (analyze_internal_link w href sp st).probe_log = st.probe_log :=
  (analyze_pres w href sp st).2.2.1

lemma analyze_gap (w : World) (href sp : Str) (st : SEOAuditor) :
    scoreGap (analyze_internal_link w href sp st) = scoreGap st :=
  (analyze_pres w href sp st).2.2.2

lemma semantics_pres (doc : Doc) (rel : Str) (st : SEOAuditor) :
    (check_semantics doc rel st).files = st.files ∧
    (check_semantics doc rel st).internal_links = st.internal_links ∧
    (check_semantics doc rel st).external_links = st.external_links ∧
    (check_semantics doc rel st).probe_log = st.probe_log ∧
    scoreGap (check_semantics doc rel st) = scoreGap st := by
  simp only [check_semantics]
  refine ⟨?_, ?_, ?_, ?_, ?_⟩ <;>
    (split_ifs <;>
      simp [add_issue, scoreGap, List.sum_append] <;> try omega)

lemma processHref_pres (w : World) (cfg : AuditConfig) (rel : Str) (st : SEOAuditor)
    (raw : Str) :
    (processHref w cfg rel st raw).files = st.files ∧
    (processHref w cfg rel st raw).probe_log = st.probe_log ∧
    scoreGap (processHref w cfg rel st raw) = scoreGap st := by
  simp only [processHref]
  refine ⟨?_, ?_, ?_⟩ <;>
    (split_ifs <;>
      first
        | rfl
        | simp [add_issue_files, add_issue_probe, analyze_files, analyze_probe]
        | rw [add_issue_gap, analyze_gap]
        | rw [analyze_gap])

lemma audit_file_pres (w : World) (cfg : AuditConfig) (f : Str) (st : SEOAuditor) :
    (audit_file w cfg f st).files = st.files ∧
    (audit_file w cfg f st).probe_log = st.probe_log ∧
    scoreGap (audit_file w cfg f st) = scoreGap st := by
  simp only [audit_file]
  cases hdoc : w.docs f with
  | error e => exact ⟨add_issue_files _ _ _ _ _, add_issue_probe _ _ _ _ _, add_issue_gap _ _ _ _ _⟩
  | ok doc =>
    refine ⟨?_, ?_, ?_⟩
    · rw [foldl_proj (SEOAuditor.files) _ _ (fun s a => (processHref_pres w cfg f s a).1)]
      exact (semantics_pres doc f st).1
    · rw [foldl_proj (SEOAuditor.probe_log) _ _ (fun s a => (processHref_pres w cfg f s a).2.1)]
      exact (semantics_pres doc f st).2.2.2.1
    · rw [foldl_proj scoreGap _ _ (fun s a => (processHref_pres w cfg f s a).2.2)]
      exact (semantics_pres doc f st).2.2.2.2

lemma audit_phase_pres (w : World) (cfg : AuditConfig) (fl : List Str) (st : SEOAuditor) :
    (audit_phase w cfg fl st).files = st.files ∧
    (audit_phase w cfg fl st).probe_log = st.probe_log ∧
    scoreGap (audit_phase w cfg fl st) = scoreGap st :=
  ⟨foldl_proj (SEOAuditor.files) _ fl (fun s a => (audit_file_pres w cfg a s).1) st,
   foldl_proj (SEOAuditor.probe_log) _ fl (fun s a => (audit_file_pres w cfg a s).2.1) st,
   foldl_proj scoreGap _ fl (fun s a => (audit_file_pres w cfg a s).2.2) st⟩

lemma orphanStep_pres (cfg : AuditConfig) (st : SEOAuditor) (f : Str) :
    (orphanStep cfg st f).files = st.files ∧
    (orphanStep cfg st f).internal_links = st.internal_links ∧
    (orphanStep cfg st f).external_links = st.external_links ∧
    (orphanStep cfg st f).probe_log = st.probe_log ∧
    scoreGap (orphanStep cfg st f) = scoreGap st := by
  simp only [orphanStep]
  refine ⟨?_, ?_, ?_, ?_, ?_⟩ <;>
    (split_ifs <;>
      simp [add_issue, scoreGap, List.sum_append] <;> try omega)

lemma orphans_pres (cfg : AuditConfig) (st : SEOAuditor) :
    (check_orphans cfg st).files = st.files ∧
    (check_orphans cfg st).internal_links = st.internal_links ∧
    (check_orphans cfg st).external_links = st.external_links ∧
    (check_orphans cfg st).probe_log = st.probe_log ∧
    scoreGap (check_orphans cfg st) = scoreGap st :=
  ⟨foldl_proj (SEOAuditor.files) _ st.files (fun s a => (orphanStep_pres cfg s a).1) st,
   foldl_proj (SEOAuditor.internal_links) _ st.files (fun s a => (orphanStep_pres cfg s a).2.1) st,
   foldl_proj (SEOAuditor.external_links) _ st.files (fun s a => (orphanStep_pres cfg s a).2.2.1) st,
   foldl_proj (SEOAuditor.probe_log) _ st.files (fun s a => (orphanStep_pres cfg s a).2.2.2.1) st,
   foldl_proj scoreGap _ st.files (fun s a => (orphanStep_pres cfg s a).2.2.2.2) st⟩

lemma externalStep_pres (w : World) (st : SEOAuditor) (u : Str) :
    (externalStep w st u).files = st.files ∧
    (externalStep w st u).internal_links = st.internal_links ∧
    (externalStep w st u).external_links = st.external_links ∧
    scoreGap (externalStep w st u) = scoreGap st := by
  simp only [externalStep]
  cases hp : w.probe u with
  | ok c =>
    dsimp only
    split_ifs <;>
      refine ⟨?_, ?_, ?_, ?_⟩ <;>
        simp [add_issue, scoreGap, List.sum_append] <;> try omega
  | error e =>
    dsimp only
    refine ⟨?_, ?_, ?_, ?_⟩ <;>
      simp [add_issue, scoreGap, List.sum_append] <;> try omega

lemma externalStep_probe (w : World) (st : SEOAuditor) (u : Str) :
    (externalStep w st u).probe_log = st.probe_log ++ [u] := by
  simp only [externalStep]
  cases hp : w.probe u with
  | ok c => dsimp only; split_ifs <;> simp [add_issue]
  | error e => simp [add_issue]

lemma external_pres (w : World) (st : SEOAuditor) :
    (check_external_links w st).files = st.files ∧
    (check_external_links w st).internal_links = st.internal_links ∧
    (check_external_links w st).external_links = st.external_links ∧
    scoreGap (check_external_links w st) = scoreGap st :=
  ⟨foldl_proj (SEOAuditor.files) _ st.external_links (fun s a => (externalStep_pres w s a).1) st,
   foldl_proj (SEOAuditor.internal_links) _ st.external_links (fun s a => (externalStep_pres w s a).2.1) st,
   foldl_proj (SEOAuditor.external_links) _ st.external_links (fun s a => (externalStep_pres w s a).2.2.1) st,
   foldl_proj scoreGap _ st.external_links (fun s a => (externalStep_pres w s a).2.2.2) st⟩

lemma ext_fold_probe (w : World) (l : List Str) :
    ∀ st : SEOAuditor, (l.foldl (externalStep w) st).probe_log = st.probe_log ++ l := by
  induction l with
  | nil => intro st; simp
  | cons u t ih => intro st; rw [List.foldl_cons, ih, externalStep_probe]; simp

lemma external_probe (w : World) (st : SEOAuditor) :
    (check_external_links w st).probe_log = st.probe_log ++ st.external_links :=
  ext_fold_probe w st.external_links st

/-! ### Run-level projections and score tracking -/

lemma run_gap (w : World) (cfg : AuditConfig) (files : List Str) :
    scoreGap (run_audit w cfg files) = 100 := by
  unfold run_audit
  rw [(external_pres _ _).2.2.2, (orphans_pres _ _).2.2.2.2, (audit_phase_pres _ _ _ _).2.2]
  simp [scoreGap, initAuditor]

lemma run_score (w : World) (cfg : AuditConfig) (files : List Str) :
    (run_audit w cfg files).score = 100 + (run_audit w cfg files).penalty_log.sum := by
  have h := run_gap w cfg files
  simp only [scoreGap] at h
  omega

lemma run_files (w : World) (cfg : AuditConfig) (files : List Str) :
    (run_audit w cfg files).files = files := by
  unfold run_audit
  rw [(external_pres _ _).1, (orphans_pres _ _).1, (audit_phase_pres _ _ _ _).1]
  rfl

lemma run_links (w : World) (cfg : AuditConfig) (files : List Str) :
    (run_audit w cfg files).internal_links
      = (audit_phase w cfg files (initAuditor files)).internal_links := by
  unfold run_audit
  rw [(external_pres _ _).2.1, (orphans_pres _ _).2.1]

lemma run_ext_links (w : World) (cfg : AuditConfig) (files : List Str) :
    (run_audit w cfg files).external_links
      = (audit_phase w cfg files (initAuditor files)).external_links := by
  unfold run_audit
  rw [(external_pres _ _).2.2.1, (orphans_pres _ _).2.2.1]

lemma run_probe_log (w : World) (cfg : AuditConfig) (files : List Str) :
    (run_audit w cfg files).probe_log
      = (audit_phase w cfg files (initAuditor files)).external_links := by
  unfold run_audit
  rw [external_probe, (orphans_pres _ _).2.2.1, (orphans_pres _ _).2.2.2.1,
    (audit_phase_pres _ _ _ _).2.1]
  simp [initAuditor]

/-- C1: the final reported score is `max 0 (100 − Σ penalties)`: the running
score tracks `100 + Σ recorded penalties` exactly (so intermediate values can
go negative), the floor is applied once in `generate_report`, and the reported
score is never negative. -/
theorem C1_final_score (w : World) (cfg : AuditConfig) (files : List Str) :
    (generate_report (run_audit w cfg files)).score
      = max 0 (100 - ((run_audit w cfg files).penalty_log.map (fun p => -p)).sum) ∧
    (run_audit w cfg files).score = 100 + (run_audit w cfg files).penalty_log.sum ∧
    0 ≤ (generate_report (run_audit w cfg files)).score := by
  have hs := run_score w cfg files
  refine ⟨?_, hs, le_max_left 0 _⟩
  have : (generate_report (run_audit w cfg files)).score
      = max 0 (run_audit w cfg files).score := rfl
  rw [this, sum_map_neg, sub_neg_eq_add, hs]

/-! ### Penalty values -/

lemma penVals_add {st : SEOAuditor} (l m c : Str) {p : Int} (h : PenVals st)
    (hp : p = 0 ∨ p = -2 ∨ p = -5 ∨ p = -10) : PenVals (add_issue st l m c p) := by
  intro q hq
  simp only [add_issue, List.mem_append, List.mem_singleton] at hq
  rcases hq with hq | hq
  · exact h q hq
  · subst hq; exact hp

lemma penVals_links (st : SEOAuditor) (g : List (Str × List Str)) (h : PenVals st) :
    PenVals { st with internal_links := g } := h

lemma penVals_ext (st : SEOAuditor) (l : List Str) (h : PenVals st) :
    PenVals { st with external_links := l } := h

lemma penVals_probe (st : SEOAuditor) (l : List Str) (h : PenVals st) :
    PenVals { st with probe_log := l } := h

lemma pv0 : (0 : Int) = 0 ∨ (0 : Int) = -2 ∨ (0 : Int) = -5 ∨ (0 : Int) = -10 :=
  Or.inl rfl

lemma pv2 : (-2 : Int) = 0 ∨ (-2 : Int) = -2 ∨ (-2 : Int) = -5 ∨ (-2 : Int) = -10 :=
  Or.inr (Or.inl rfl)

lemma pv5 : (-5 : Int) = 0 ∨ (-5 : Int) = -2 ∨ (-5 : Int) = -5 ∨ (-5 : Int) = -10 :=
  Or.inr (Or.inr (Or.inl rfl))

lemma pv10 : (-10 : Int) = 0 ∨ (-10 : Int) = -2 ∨ (-10 : Int) = -5 ∨ (-10 : Int) = -10 :=
  Or.inr (Or.inr (Or.inr rfl))

lemma analyze_penVals (w : World) (href sp : Str) (st : SEOAuditor) (h : PenVals st) :
    PenVals (analyze_internal_link w href sp st) := by
  simp only [analyze_internal_link, styleWarns]
  split_ifs <;> (try split) <;>
    first
      | exact h
      | exact penVals_add _ _ _ h pv2
      | exact penVals_add _ _ _ h pv10
      | exact penVals_add _ _ _ (penVals_add _ _ _ h pv2) pv2
      | exact penVals_add _ _ _ (penVals_add _ _ _ h pv2) pv10
      | exact penVals_add _ _ _ (penVals_add _ _ _ (penVals_add _ _ _ h pv2) pv2) pv10
      | exact penVals_links _ _ h
      | exact penVals_links _ _ (penVals_add _ _ _ h pv2)
      | exact penVals_links _ _ (penVals_add _ _ _ (penVals_add _ _ _ h pv2) pv2)

lemma semantics_penVals (doc : Doc) (rel : Str) (st : SEOAuditor) (h : PenVals st) :
    PenVals (check_semantics doc rel st) := by
  simp only [check_semantics]
  split_ifs <;>
    first
      | exact h
      | exact penVals_add _ _ _ h pv5
      | exact penVals_add _ _ _ h pv2
      | exact penVals_add _ _ _ (penVals_add _ _ _ h pv5) pv2
      | exact penVals_add _ _ _ (penVals_add _ _ _ h pv2) pv2

lemma processHref_penVals (w : World) (cfg : AuditConfig) (rel : Str) (st : SEOAuditor)
    (raw : Str) (h : PenVals st) : PenVals (processHref w cfg rel st raw) := by
  simp only [processHref]
  split_ifs <;>
    first
      | exact h
      | exact penVals_ext _ _ h
      | exact penVals_add _ _ _ (analyze_penVals _ _ _ _ h) pv2
      | exact analyze_penVals _ _ _ _ h

lemma audit_file_penVals (w : World) (cfg : AuditConfig) (f : Str) (st : SEOAuditor)
    (h : PenVals st) : PenVals (audit_file w cfg f st) := by
  simp only [audit_file]
  cases hdoc : w.docs f with
  | error e => exact penVals_add _ _ _ h (Or.inl rfl)
  | ok doc =>
    exact foldl_inv PenVals _ _ (fun s a hs => processHref_penVals w cfg f s a hs) _
      (semantics_penVals doc f st h)

lemma orphanStep_penVals (cfg : AuditConfig) (st : SEOAuditor) (f : Str) (h : PenVals st) :
    PenVals (orphanStep cfg st f) := by
  simp only [orphanStep]
  split_ifs <;>
    first
      | exact h
      | exact penVals_add _ _ _ h pv5

lemma externalStep_penVals (w : World) (st : SEOAuditor) (u : Str) (h : PenVals st) :
    PenVals (externalStep w st u) := by
  simp only [externalStep]
  cases hp : w.probe u with
  | ok c =>
    dsimp only
    split_ifs <;>
      first
        | exact penVals_probe st _ h
        | exact penVals_add _ _ _ (penVals_probe st _ h) pv5
  | error e =>
    exact penVals_add _ _ _ (penVals_probe st _ h) pv0

lemma run_penVals (w : World) (cfg : AuditConfig) (files : List Str) :
    PenVals (run_audit w cfg files) := by
  unfold run_audit check_external_links
  apply foldl_inv PenVals _ _ (fun s a hs => externalStep_penVals w s a hs)
  unfold check_orphans
  apply foldl_inv PenVals _ _ (fun s a hs => orphanStep_penVals cfg s a hs)
  unfold audit_phase
  apply foldl_inv PenVals _ _ (fun s a hs => audit_file_penVals w cfg a s hs)
  intro p hp
  cases hp

lemma sum_take_step (l : List Int) (hl : ∀ p ∈ l, p ≤ 0) :
    ∀ n, (l.take (n + 1)).sum ≤ (l.take n).sum := by
  induction l with
  | nil => intro n; simp
  | cons p t ih =>
    intro n
    cases n with
    | zero =>
      simp only [List.take_succ_cons, List.take_zero, List.sum_cons, List.sum_nil]
      have := hl p (List.mem_cons_self p t)
      have ht : (t.take 0).sum = 0 := by simp
      have h0 : (t.take 1).sum ≤ (t.take 0).sum :=
        ih (fun q hq => hl q (List.mem_cons_of_mem p hq)) 0
      omega
    | succ m =>
      simp only [List.take_succ_cons, List.sum_cons]
      have := ih (fun q hq => hl q (List.mem_cons_of_mem p hq)) m
      omega

lemma sum_nonpos_of_all (l : List Int) (hl : ∀ p ∈ l, p ≤ 0) : l.sum ≤ 0 := by
  induction l with
  | nil => simp
  | cons p t ih =>
    simp only [List.sum_cons]
    have := hl p (List.mem_cons_self p t)
    have := ih (fun q hq => hl q (List.mem_cons_of_mem p hq))
    omega

lemma sum_take_nonpos (l : List Int) (hl : ∀ p ∈ l, p ≤ 0) (n : Nat) :
    (l.take n).sum ≤ 0 :=
  sum_nonpos_of_all _ (fun q hq => hl q (List.mem_of_mem_take hq))

/-- C10: every recorded penalty is one of 0, −2, −5, −10 (hence ≤ 0); the
running score (100 plus the sum of the first n recorded penalties) is
monotonically non-increasing in n, never exceeds 100, and the final score is
at most 100. -/
theorem C10_penalty_values (w : World) (cfg : AuditConfig) (files : List Str) :
    (∀ p ∈ (run_audit w cfg files).penalty_log,
        p = 0 ∨ p = -2 ∨ p = -5 ∨ p = -10) ∧
    (∀ n : Nat, 100 + ((run_audit w cfg files).penalty_log.take (n + 1)).sum
        ≤ 100 + ((run_audit w cfg files).penalty_log.take n).sum) ∧
    (∀ n : Nat, 100 + ((run_audit w cfg files).penalty_log.take n).sum ≤ 100) ∧
    (run_audit w cfg files).score ≤ 100 := by
  have hv := run_penVals w cfg files
  have hle : ∀ p ∈ (run_audit w cfg files).penalty_log, p ≤ 0 := by
    intro p hp
    rcases hv p hp with h | h | h | h <;> omega
  refine ⟨hv, ?_, ?_, ?_⟩
  · intro n
    have := sum_take_step _ hle n
    omega
  · intro n
    have := sum_take_nonpos _ hle n
    omega
  · have := run_score w cfg files
    have := sum_nonpos_of_all _ hle
    omega

/-- Witness for C10 at the concrete site: the penalty −5 is recorded during
the run and satisfies the value constraint, and the first step of the running
score is non-increasing. -/
theorem C10_penalty_values_witness :
    ((-5 : Int) ∈ R0.penalty_log ∧
      ((-5 : Int) = 0 ∨ (-5 : Int) = -2 ∨ (-5 : Int) = -5 ∨ (-5 : Int) = -10)) ∧
    100 + (R0.penalty_log.take 1).sum ≤ 100 + (R0.penalty_log.take 0).sum :=
  ⟨⟨by decide, (C10_penalty_values w0 cfg0 fsFiles).1 (-5) (by decide)⟩,
    (C10_penalty_values w0 cfg0 fsFiles).2.1 0⟩

/-! ### Issue counting through the engine -/

lemma count_ite_add_ne {i : Issue} {l m ct : Str} {p : Int} (c : Prop) [Decidable c]
    (st : SEOAuditor) (h : Issue.mk l m ct ≠ i) :
    countIssue i (if c then add_issue st l m ct p else st).issues
      = countIssue i st.issues := by
  split
  · exact count_add_ne st p h
  · rfl

lemma count_styleWarns {i : Issue} (href sp : Str) (st : SEOAuditor)
    (hext : Issue.mk warnLit (extMsgLit ++ href) sp ≠ i)
    (hrel : Issue.mk warnLit (relMsgLit ++ href) sp ≠ i) :
    countIssue i (styleWarns href sp st).issues = countIssue i st.issues := by
  simp only [styleWarns]
  rw [count_ite_add_ne _ _ hrel, count_ite_add_ne _ _ hext]

lemma count_analyze_ne {i : Issue} (w : World) (href sp : Str) (st : SEOAuditor)
    (hext : Issue.mk warnLit (extMsgLit ++ href) sp ≠ i)
    (hrel : Issue.mk warnLit (relMsgLit ++ href) sp ≠ i)
    (hdead : Issue.mk errorLit (deadMsg href) sp ≠ i) :
    countIssue i (analyze_internal_link w href sp st).issues = countIssue i st.issues := by
  simp only [analyze_internal_link]
  split_ifs with hC
  · rw [count_add_ne _ _ hdead, count_styleWarns _ _ _ hext hrel]
  · split
    · exact count_styleWarns _ _ _ hext hrel
    · exact count_styleWarns _ _ _ hext hrel

/-- C2: for every internal href analyzed from a source document, the ERROR
"dead link" issue for that href is emitted exactly once iff all three
resolution checks fail (`linkExists` is their disjunction, checked in order);
if any succeeds, no dead-link issue is emitted by the analysis. -/
theorem C2_dead_link_iff (w : World) (href sp : Str) (st : SEOAuditor) :
    countIssue ⟨errorLit, deadMsg href, sp⟩ (analyze_internal_link w href sp st).issues
      = countIssue ⟨errorLit, deadMsg href, sp⟩ st.issues
        + (if linkExists w (localTarget href sp) then 0 else 1) := by
  have hext : Issue.mk warnLit (extMsgLit ++ href) sp ≠ ⟨errorLit, deadMsg href, sp⟩ :=
    mk_ne_of_level (show warnLit ≠ errorLit by decide)
  have hrel : Issue.mk warnLit (relMsgLit ++ href) sp ≠ ⟨errorLit, deadMsg href, sp⟩ :=
    mk_ne_of_level (show warnLit ≠ errorLit by decide)
  simp only [analyze_internal_link]
  by_cases hC : linkExists w (localTarget href sp) = true
  · rw [if_neg (show ¬(!linkExists w (localTarget href sp)) = true by simp_all),
      if_pos hC, Nat.add_zero]
    split
    · exact count_styleWarns _ _ _ hext hrel
    · exact count_styleWarns _ _ _ hext hrel
  · rw [if_pos (show (!linkExists w (localTarget href sp)) = true by simp_all),
      if_neg hC, count_add, count_styleWarns _ _ _ hext hrel, if_pos rfl]

lemma count_semantics_ne {i : Issue} (doc : Doc) (rel : Str) (st : SEOAuditor)
    (hh1 : Issue.mk errorLit missingH1Lit rel ≠ i)
    (hh2 : Issue.mk warnLit multiH1Lit rel ≠ i)
    (hsch : Issue.mk warnLit schemaLit rel ≠ i) :
    countIssue i (check_semantics doc rel st).issues = countIssue i st.issues := by
  simp only [check_semantics]
  rw [count_ite_add_ne _ _ hsch]
  split_ifs <;>
    first
      | rfl
      | exact count_add_ne _ _ hh1
      | exact count_add_ne _ _ hh2

lemma count_processHref_ne {i : Issue} (w : World) (cfg : AuditConfig) (rel : Str)
    (st : SEOAuditor) (raw : Str)
    (hext : ∀ h : Str, Issue.mk warnLit (extMsgLit ++ h) rel ≠ i)
    (hrel : ∀ h : Str, Issue.mk warnLit (relMsgLit ++ h) rel ≠ i)
    (habs : ∀ h : Str, Issue.mk warnLit (absMsgLit ++ h) rel ≠ i)
    (hdead : ∀ h : Str, Issue.mk errorLit (deadMsg h) rel ≠ i) :
    countIssue i (processHref w cfg rel st raw).issues = countIssue i st.issues := by
  simp only [processHref]
  split_ifs <;>
    first
      | rfl
      | exact count_analyze_ne w _ rel st (hext _) (hrel _) (hdead _)
      | rw [count_add_ne _ _ (habs _),
          count_analyze_ne w _ rel st (hext _) (hrel _) (hdead _)]

lemma count_audit_file_ne {i : Issue} (w : World) (cfg : AuditConfig) (f : Str)
    (st : SEOAuditor)
    (hfail : ∀ e : Str, Issue.mk errorLit (failMsgLit ++ e) f ≠ i)
    (hh1 : Issue.mk errorLit missingH1Lit f ≠ i)
    (hh2 : Issue.mk warnLit multiH1Lit f ≠ i)
    (hsch : Issue.mk warnLit schemaLit f ≠ i)
    (hext : ∀ h : Str, Issue.mk warnLit (extMsgLit ++ h) f ≠ i)
    (hrel : ∀ h : Str, Issue.mk warnLit (relMsgLit ++ h) f ≠ i)
    (habs : ∀ h : Str, Issue.mk warnLit (absMsgLit ++ h) f ≠ i)
    (hdead : ∀ h : Str, Issue.mk errorLit (deadMsg h) f ≠ i) :
    countIssue i (audit_file w cfg f st).issues = countIssue i st.issues := by
  simp only [audit_file]
  cases hdoc : w.docs f with
  | error e => exact count_add_ne _ _ (hfail e)
  | ok doc =>
    rw [foldl_proj (fun s => countIssue i s.issues) _ _
      (fun s a => count_processHref_ne w cfg f s a hext hrel habs hdead)]
    exact count_semantics_ne doc f st hh1 hh2 hsch

lemma count_orphanStep_ne {i : Issue} (cfg : AuditConfig) (st : SEOAuditor) (f : Str)
    (horph : Issue.mk warnLit orphanLit f ≠ i) :
    countIssue i (orphanStep cfg st f).issues = countIssue i st.issues := by
  simp only [orphanStep]
  split_ifs <;> first | rfl | exact count_add_ne _ _ horph

lemma count_externalStep_ne {i : Issue} (w : World) (st : SEOAuditor) (u : Str)
    (hdead : ∀ c : Nat, Issue.mk errorLit (extDeadMsg c u) globalLit ≠ i)
    (hfail : ∀ e : Str, Issue.mk warnLit (extFailMsg u e) globalLit ≠ i) :
    countIssue i (externalStep w st u).issues = countIssue i st.issues := by
  simp only [externalStep]
  cases hp : w.probe u with
  | ok c =>
    dsimp only
    split_ifs
    · exact count_add_ne _ _ (hdead c)
    · rfl
  | error e => exact count_add_ne _ _ (hfail e)

/-! ### Orphan detection (C3) -/

lemma orphan_fold_count (cfg : AuditConfig) (d : Str) (l : List Str) :
    ∀ st : SEOAuditor,
      countIssue ⟨warnLit, orphanLit, d⟩ (l.foldl (orphanStep cfg) st).issues
        = countIssue ⟨warnLit, orphanLit, d⟩ st.issues
          + (if d ≠ indexLit ∧ should_ignore_file cfg d = false
                ∧ graphLookup st.internal_links d = none
             then countStr d l else 0) := by
  induction l with
  | nil => intro st; simp [countStr]
  | cons f t ih =>
    intro st
    rw [List.foldl_cons, ih, (orphanStep_pres cfg st f).2.1]
    by_cases hcond : d ≠ indexLit ∧ should_ignore_file cfg d = false
        ∧ graphLookup st.internal_links d = none
    · rw [if_pos hcond, if_pos hcond]
      by_cases hfd : f = d
      · subst hfd
        rcases hcond with ⟨h1, h2, h3⟩
        have hstep : countIssue ⟨warnLit, orphanLit, f⟩ (orphanStep cfg st f).issues
            = countIssue ⟨warnLit, orphanLit, f⟩ st.issues + 1 := by
          simp only [orphanStep]
          rw [if_neg (show ¬(f = indexLit ∨ should_ignore_file cfg f = true) by
                simp [h1, h2]),
            if_neg (show ¬((graphLookup st.internal_links f).isSome = true) by
                simp [h3]),
            count_add, if_pos rfl]
        rw [hstep, countStr, if_pos rfl]
        omega
      · have hne : Issue.mk warnLit orphanLit f ≠ ⟨warnLit, orphanLit, d⟩ :=
          mk_ne_of_ctx hfd
        rw [count_orphanStep_ne cfg st f hne, countStr,
          if_neg hfd]
        omega
    · rw [if_neg hcond, if_neg hcond]
      by_cases hfd : f = d
      · subst hfd
        have hstep : countIssue ⟨warnLit, orphanLit, f⟩ (orphanStep cfg st f).issues
            = countIssue ⟨warnLit, orphanLit, f⟩ st.issues := by
          simp only [orphanStep]
          split_ifs with hA hB
          · rfl
          · rfl
          · exfalso
            apply hcond
            push_neg at hA
            refine ⟨hA.1, ?_, ?_⟩
            · cases hig : should_ignore_file cfg f
              · rfl
              · exact absurd hig hA.2
            · cases hk : graphLookup st.internal_links f with
              | none => rfl
              | some v => exact absurd (by simp [hk]) hB
        rw [hstep]
      · exact congrArg (· + 0)
          (count_orphanStep_ne cfg st f (mk_ne_of_ctx hfd))

/-- C3: in the completed run, a discovered document other than the home
document and ignore-listed documents is flagged with exactly one WARN
"orphan page" issue iff its path is not a key of the completed internal-link
graph; with at least one inbound link (a graph key, regardless of which
document's processing inserted it) it is never flagged. -/
theorem C3_orphan_detection (w : World) (cfg : AuditConfig) (files : List Str) (d : Str)
    (hnd : files.Nodup) (hd : d ∈ files) (hhome : d ≠ indexLit)
    (hig : should_ignore_file cfg d = false) :
    countIssue ⟨warnLit, orphanLit, d⟩ (run_audit w cfg files).issues
      = (if graphLookup (run_audit w cfg files).internal_links d = none
         then 1 else 0) := by
  have hstepA : ∀ (s : SEOAuditor) (a : Str),
      countIssue (⟨warnLit, orphanLit, d⟩ : Issue) (audit_file w cfg a s).issues
        = countIssue ⟨warnLit, orphanLit, d⟩ s.issues :=
    fun s a => count_audit_file_ne w cfg a s
      (fun e => mk_ne_of_level (show errorLit ≠ warnLit by decide))
      (mk_ne_of_level (show errorLit ≠ warnLit by decide))
      (mk_ne_of_msg (show multiH1Lit ≠ orphanLit by decide))
      (mk_ne_of_msg (show schemaLit ≠ orphanLit by decide))
      (fun h => mk_ne_of_msg (ne_of_head_vals rfl rfl (show 'L' ≠ 'O' by decide)))
      (fun h => mk_ne_of_msg (ne_of_head_vals rfl rfl (show 'L' ≠ 'O' by decide)))
      (fun h => mk_ne_of_msg (ne_of_head_vals rfl rfl (show 'I' ≠ 'O' by decide)))
      (fun h => mk_ne_of_level (show errorLit ≠ warnLit by decide))
  have hstepX : ∀ (s : SEOAuditor) (u : Str),
      countIssue (⟨warnLit, orphanLit, d⟩ : Issue) (externalStep w s u).issues
        = countIssue ⟨warnLit, orphanLit, d⟩ s.issues :=
    fun s u => count_externalStep_ne w s u
      (fun c => mk_ne_of_level (show errorLit ≠ warnLit by decide))
      (fun e => mk_ne_of_msg (ne_of_head_vals rfl rfl (show 'E' ≠ 'O' by decide)))
  have h1 : countIssue ⟨warnLit, orphanLit, d⟩
      (audit_phase w cfg files (initAuditor files)).issues = 0 := by
    unfold audit_phase
    rw [foldl_proj (fun s => countIssue ⟨warnLit, orphanLit, d⟩ s.issues) _ files
      hstepA _]
    rfl
  have hfiles : (audit_phase w cfg files (initAuditor files)).files = files := by
    rw [(audit_phase_pres w cfg files (initAuditor files)).1]
    rfl
  have h2 : countIssue ⟨warnLit, orphanLit, d⟩
      (check_orphans cfg (audit_phase w cfg files (initAuditor files))).issues
      = (if d ≠ indexLit ∧ should_ignore_file cfg d = false
            ∧ graphLookup (audit_phase w cfg files (initAuditor files)).internal_links d
              = none
         then countStr d files else 0) := by
    unfold check_orphans
    rw [hfiles, orphan_fold_count cfg d files _, h1]
    exact Nat.zero_add _
  have h3 : countIssue ⟨warnLit, orphanLit, d⟩ (run_audit w cfg files).issues
      = countIssue ⟨warnLit, orphanLit, d⟩
          (check_orphans cfg (audit_phase w cfg files (initAuditor files))).issues := by
    unfold run_audit check_external_links
    exact foldl_proj (fun s => countIssue ⟨warnLit, orphanLit, d⟩ s.issues) _ _
      hstepX _
  rw [h3, h2, run_links]
  by_cases hlook : graphLookup (audit_phase w cfg files (initAuditor files)).internal_links d
      = none
  · rw [if_pos ⟨hhome, hig, hlook⟩, if_pos hlook, countStr_eq_one d files hnd hd]
  · rw [if_neg (fun hc => hlook hc.2.2), if_neg hlook]

/-- Witness for C3 at the concrete site: `c.html` has no inbound link and is
flagged as an orphan exactly once. -/
theorem C3_orphan_detection_witness :
    (fsFiles.Nodup ∧ "c.html".toList ∈ fsFiles ∧ "c.html".toList ≠ indexLit ∧
      should_ignore_file cfg0 ("c.html".toList) = false) ∧
    countIssue ⟨warnLit, orphanLit, "c.html".toList⟩ R0.issues
      = (if graphLookup R0.internal_links ("c.html".toList) = none then 1 else 0) :=
  ⟨⟨by decide, by decide, by decide, by decide⟩,
    C3_orphan_detection w0 cfg0 fsFiles ("c.html".toList)
      (by decide) (by decide) (by decide) (by decide)⟩

/-! ### External-link deduplication and probing (C4) -/

lemma digitChar_isDigit (d : Nat) (hd : d < 10) : (digitChar d).isDigit = true := by
  interval_cases d <;> decide

lemma natDigitsAux_digits (fuel : Nat) :
    ∀ n : Nat, ∀ c ∈ natDigitsAux fuel n, c.isDigit = true := by
  induction fuel with
  | zero => intro n c hc; cases hc
  | succ f ih =>
    intro n c hc
    rw [natDigitsAux] at hc
    split_ifs at hc with h
    · simp only [List.mem_singleton] at hc
      subst hc
      exact digitChar_isDigit n h
    · rcases List.mem_append.1 hc with h1 | h1
      · exact ih _ c h1
      · simp only [List.mem_singleton] at h1
        subst h1
        exact digitChar_isDigit _ (Nat.mod_lt _ (by omega))

lemma natStr_digits (n : Nat) : ∀ c ∈ natStr n, c.isDigit = true :=
  natDigitsAux_digits (n + 1) n

lemma dropWhile_append_all {p : Char → Bool} (l1 l2 : Str)
    (h : ∀ a ∈ l1, p a = true) : (l1 ++ l2).dropWhile p = l2.dropWhile p := by
  induction l1 with
  | nil => rfl
  | cons a t ih =>
    rw [List.cons_append, List.dropWhile_cons, h a (List.mem_cons_self a t)]
    simp only [if_true]
    exact ih (fun b hb => h b (List.mem_cons_of_mem a hb))

lemma dropWhile_not_head {p : Char → Bool} (a : Char) (l : Str) (h : p a = false) :
    (a :: l).dropWhile p = a :: l := by
  rw [List.dropWhile_cons, h]
  simp

lemma extDead_decode (c : Nat) (u : Str) :
    ((extDeadMsg c u).drop extDeadLit.length).dropWhile Char.isDigit
      = extDeadMidLit ++ u := by
  unfold extDeadMsg
  rw [show extDeadLit ++ natStr c ++ extDeadMidLit ++ u
      = extDeadLit ++ (natStr c ++ (extDeadMidLit ++ u)) by simp [List.append_assoc]]
  rw [List.drop_left, dropWhile_append_all _ _ (natStr_digits c)]
  have hmid : extDeadMidLit ++ u = ')' :: ([':', ' '] ++ u) := rfl
  rw [hmid, dropWhile_not_head _ _ (by decide)]

lemma extDeadMsg_inj_url {c1 c2 : Nat} {v u : Str}
    (h : extDeadMsg c1 v = extDeadMsg c2 u) : v = u := by
  have h1 := congrArg (fun s : Str => (s.drop extDeadLit.length).dropWhile Char.isDigit) h
  simp only [extDead_decode] at h1
  exact List.append_cancel_left h1

lemma setAdd_nodup (l : List Str) (u : Str) (h : l.Nodup) : (setAdd l u).Nodup := by
  unfold setAdd
  split_ifs with hm
  · exact h
  · refine List.nodup_append.2 ⟨h, List.nodup_singleton u, ?_⟩
    intro x hx hx'
    rw [List.mem_singleton] at hx'
    subst hx'
    exact hm hx

lemma processHref_extNodup (w : World) (cfg : AuditConfig) (rel : Str) (st : SEOAuditor)
    (raw : Str) (h : st.external_links.Nodup) :
    (processHref w cfg rel st raw).external_links.Nodup := by
  simp only [processHref]
  split_ifs <;>
    first
      | exact h
      | (rw [add_issue_ext, analyze_ext]; exact h)
      | exact setAdd_nodup _ _ h
      | (rw [analyze_ext]; exact h)

lemma audit_file_extNodup (w : World) (cfg : AuditConfig) (f : Str) (st : SEOAuditor)
    (h : st.external_links.Nodup) : (audit_file w cfg f st).external_links.Nodup := by
  simp only [audit_file]
  cases hdoc : w.docs f with
  | error e => rw [add_issue_ext]; exact h
  | ok doc =>
    refine foldl_inv (fun s => s.external_links.Nodup) _ _
      (fun s a hs => processHref_extNodup w cfg f s a hs) _ ?_
    show (check_semantics doc f st).external_links.Nodup
    rw [(semantics_pres doc f st).2.2.1]
    exact h

lemma run_ext_nodup (w : World) (cfg : AuditConfig) (files : List Str) :
    (run_audit w cfg files).external_links.Nodup := by
  rw [run_ext_links]
  exact foldl_inv (fun s => s.external_links.Nodup) _ files
    (fun s a hs => audit_file_extNodup w cfg a s hs) _ List.nodup_nil

lemma ext_fold_count (w : World) (u : Str) (c0 : Nat) (hp : w.probe u = .ok c0)
    (h40 : 400 ≤ c0) (l : List Str) :
    ∀ st : SEOAuditor,
      countIssue ⟨errorLit, extDeadMsg c0 u, globalLit⟩ (l.foldl (externalStep w) st).issues
        = countIssue ⟨errorLit, extDeadMsg c0 u, globalLit⟩ st.issues + countStr u l := by
  induction l with
  | nil => intro st; simp [countStr]
  | cons v t ih =>
    intro st
    rw [List.foldl_cons, ih]
    by_cases hv : v = u
    · subst hv
      have hstep : countIssue (⟨errorLit, extDeadMsg c0 v, globalLit⟩ : Issue)
          (externalStep w st v).issues
          = countIssue ⟨errorLit, extDeadMsg c0 v, globalLit⟩ st.issues + 1 := by
        simp only [externalStep, hp]
        rw [if_pos h40, count_add, if_pos rfl]
      rw [hstep, countStr, if_pos rfl]
      omega
    · have hstep := count_externalStep_ne w st v
        (i := ⟨errorLit, extDeadMsg c0 u, globalLit⟩)
        (fun c => mk_ne_of_msg (fun he => hv (extDeadMsg_inj_url he)))
        (fun e => mk_ne_of_level (show warnLit ≠ errorLit by decide))
      rw [hstep, countStr, if_neg hv]
      omega

/-- C4: an external URL in the deduplicated set is probed exactly once per run
(one entry in the probe log), the set itself has no duplicates however many
documents referenced the URL, and a probe answering a status ≥ 400 yields
exactly one ERROR issue with context "GLOBAL". -/
theorem C4_external_once (w : World) (cfg : AuditConfig) (files : List Str) (u : Str)
    (hu : u ∈ (run_audit w cfg files).external_links) :
    countStr u (run_audit w cfg files).probe_log = 1 ∧
    (run_audit w cfg files).external_links.Nodup ∧
    (∀ c : Nat, w.probe u = .ok c → 400 ≤ c →
      countIssue ⟨errorLit, extDeadMsg c u, globalLit⟩ (run_audit w cfg files).issues
        = 1) := by
  have hlinks : (run_audit w cfg files).external_links
      = (audit_phase w cfg files (initAuditor files)).external_links :=
    run_ext_links w cfg files
  have hnodup := run_ext_nodup w cfg files
  refine ⟨?_, hnodup, ?_⟩
  · rw [run_probe_log, ← hlinks]
    exact countStr_eq_one u _ hnodup hu
  · intro c hp h40
    have hstepA : ∀ (s : SEOAuditor) (a : Str),
        countIssue (⟨errorLit, extDeadMsg c u, globalLit⟩ : Issue)
            (audit_file w cfg a s).issues
          = countIssue ⟨errorLit, extDeadMsg c u, globalLit⟩ s.issues :=
      fun s a => count_audit_file_ne w cfg a s
        (fun e => mk_ne_of_msg (ne_of_head_vals rfl rfl (show 'F' ≠ 'E' by decide)))
        (mk_ne_of_msg (ne_of_head_vals rfl rfl (show 'M' ≠ 'E' by decide)))
        (mk_ne_of_level (show warnLit ≠ errorLit by decide))
        (mk_ne_of_level (show warnLit ≠ errorLit by decide))
        (fun h => mk_ne_of_level (show warnLit ≠ errorLit by decide))
        (fun h => mk_ne_of_level (show warnLit ≠ errorLit by decide))
        (fun h => mk_ne_of_level (show warnLit ≠ errorLit by decide))
        (fun h => mk_ne_of_msg (ne_of_head_vals rfl rfl (show 'D' ≠ 'E' by decide)))
    have h1 : countIssue (⟨errorLit, extDeadMsg c u, globalLit⟩ : Issue)
        (audit_phase w cfg files (initAuditor files)).issues = 0 := by
      unfold audit_phase
      rw [foldl_proj (fun s => countIssue ⟨errorLit, extDeadMsg c u, globalLit⟩ s.issues)
        _ files hstepA _]
      rfl
    have h2 : countIssue (⟨errorLit, extDeadMsg c u, globalLit⟩ : Issue)
        (check_orphans cfg (audit_phase w cfg files (initAuditor files))).issues = 0 := by
      unfold check_orphans
      rw [foldl_proj (fun s => countIssue ⟨errorLit, extDeadMsg c u, globalLit⟩ s.issues)
        _ _ (fun s a => count_orphanStep_ne cfg s a
          (mk_ne_of_level (show warnLit ≠ errorLit by decide))) _]
      exact h1
    have h3 : (check_orphans cfg (audit_phase w cfg files (initAuditor files))).external_links
        = (audit_phase w cfg files (initAuditor files)).external_links :=
      (orphans_pres cfg _).2.2.1
    show countIssue _ (check_external_links w
      (check_orphans cfg (audit_phase w cfg files (initAuditor files)))).issues = 1
    unfold check_external_links
    rw [ext_fold_count w u c hp h40 _ _, h2, h3]
    rw [countStr_eq_one u _ (hlinks ▸ hnodup) (hlinks ▸ hu)]

/-- Witness for C4 at the concrete site: the single external URL is probed
once, the set is duplicate-free, and its 404 yields exactly one GLOBAL ERROR. -/
theorem C4_external_once_witness :
    ("https://ext.example/x".toList ∈ R0.external_links ∧
      w0.probe ("https://ext.example/x".toList) = .ok 404 ∧ 400 ≤ 404) ∧
    countStr ("https://ext.example/x".toList) R0.probe_log = 1 ∧
    countIssue ⟨errorLit, extDeadMsg 404 ("https://ext.example/x".toList), globalLit⟩
        R0.issues = 1 :=
  ⟨⟨by decide, rfl, by decide⟩,
    (C4_external_once w0 cfg0 fsFiles ("https://ext.example/x".toList) (by decide)).1,
    (C4_external_once w0 cfg0 fsFiles ("https://ext.example/x".toList) (by decide)).2.2
      404 rfl (by decide)⟩

/-! ### External probe outcomes (C6) and per-document failure (C7) -/

/-- C6: a completed probe with status ≥ 400 records exactly the ERROR
"external dead link" issue with context "GLOBAL" and penalty −5; a status
below 400 records nothing; a transport-level failure records exactly the WARN
"external check failed" issue with context "GLOBAL" and penalty 0, leaving the
score unchanged. -/
theorem C6_probe_outcomes (w : World) (u : Str) (st : SEOAuditor) :
    (∀ c : Nat, w.probe u = .ok c → 400 ≤ c →
      (externalStep w st u).issues
          = st.issues ++ [⟨errorLit, extDeadMsg c u, globalLit⟩] ∧
        (externalStep w st u).score = st.score - 5 ∧
        (externalStep w st u).penalty_log = st.penalty_log ++ [-5]) ∧
    (∀ c : Nat, w.probe u = .ok c → c < 400 →
      (externalStep w st u).issues = st.issues ∧
        (externalStep w st u).score = st.score) ∧
    (∀ e : Str, w.probe u = .error e →
      (externalStep w st u).issues
          = st.issues ++ [⟨warnLit, extFailMsg u e, globalLit⟩] ∧
        (externalStep w st u).score = st.score ∧
        (externalStep w st u).penalty_log = st.penalty_log ++ [0]) := by
  refine ⟨?_, ?_, ?_⟩
  · intro c hp h40
    simp only [externalStep, hp]
    rw [if_pos h40]
    refine ⟨rfl, ?_, rfl⟩
    simp only [add_issue]
    omega
  · intro c hp h40
    simp only [externalStep, hp]
    rw [if_neg (by omega)]
    exact ⟨rfl, rfl⟩
  · intro e hp
    simp only [externalStep, hp]
    refine ⟨rfl, ?_, rfl⟩
    simp only [add_issue]
    omega

/-- Witness for C6: the three outcomes on the probe world `wp`. -/
theorem C6_probe_outcomes_witness :
    ((externalStep wp st0 ("https://bad.example/".toList)).issues
        = st0.issues
          ++ [⟨errorLit, extDeadMsg 404 ("https://bad.example/".toList), globalLit⟩] ∧
      (externalStep wp st0 ("https://bad.example/".toList)).score = st0.score - 5 ∧
      (externalStep wp st0 ("https://bad.example/".toList)).penalty_log
        = st0.penalty_log ++ [-5]) ∧
    ((externalStep wp st0 ("https://ok.example/".toList)).issues = st0.issues ∧
      (externalStep wp st0 ("https://ok.example/".toList)).score = st0.score) ∧
    ((externalStep wp st0 ("https://down.example/".toList)).issues
        = st0.issues
          ++ [⟨warnLit, extFailMsg ("https://down.example/".toList) ("timeout".toList),
               globalLit⟩] ∧
      (externalStep wp st0 ("https://down.example/".toList)).score = st0.score ∧
      (externalStep wp st0 ("https://down.example/".toList)).penalty_log
        = st0.penalty_log ++ [0]) :=
  ⟨(C6_probe_outcomes wp ("https://bad.example/".toList) st0).1 404 rfl (by decide),
   (C6_probe_outcomes wp ("https://ok.example/".toList) st0).2.1 200 rfl (by decide),
   (C6_probe_outcomes wp ("https://down.example/".toList) st0).2.2
     ("timeout".toList) rfl⟩

/-- C7: a document whose read/parse step fails contributes exactly one ERROR
issue (penalty 0) and nothing else: the per-document loop continues with the
remaining documents from exactly that state, and the failed document leaves no
internal-link graph entries and no external-link set additions. -/
theorem C7_failed_document (w : World) (cfg : AuditConfig) (l1 l2 : List Str)
    (f e : Str) (st : SEOAuditor) (hf : w.docs f = .error e) :
    audit_phase w cfg (l1 ++ f :: l2) st
      = audit_phase w cfg l2
          (add_issue (audit_phase w cfg l1 st) errorLit (failMsgLit ++ e) f 0) ∧
    (add_issue (audit_phase w cfg l1 st) errorLit (failMsgLit ++ e) f 0).issues
      = (audit_phase w cfg l1 st).issues ++ [⟨errorLit, failMsgLit ++ e, f⟩] ∧
    (add_issue (audit_phase w cfg l1 st) errorLit (failMsgLit ++ e) f 0).internal_links
      = (audit_phase w cfg l1 st).internal_links ∧
    (add_issue (audit_phase w cfg l1 st) errorLit (failMsgLit ++ e) f 0).external_links
      = (audit_phase w cfg l1 st).external_links ∧
    (add_issue (audit_phase w cfg l1 st) errorLit (failMsgLit ++ e) f 0).score
      = (audit_phase w cfg l1 st).score := by
  refine ⟨?_, rfl, rfl, rfl, ?_⟩
  · unfold audit_phase
    rw [List.foldl_append, List.foldl_cons]
    congr 1
    show audit_file w cfg f _ = _
    simp only [audit_file, hf]
  · simp [add_issue]

/-- Witness for C7 at the concrete site: `c.html` fails to parse; its
processing adds exactly one ERROR issue and no link data. -/
theorem C7_failed_document_witness :
    w0.docs ("c.html".toList) = .error ("boom".toList) ∧
    audit_phase w0 cfg0
        (["index.html".toList, "a.html".toList, "b.html".toList] ++
          "c.html".toList :: []) st0
      = audit_phase w0 cfg0 []
          (add_issue
            (audit_phase w0 cfg0
              ["index.html".toList, "a.html".toList, "b.html".toList] st0)
            errorLit (failMsgLit ++ "boom".toList) ("c.html".toList) 0) :=
  ⟨rfl,
    (C7_failed_document w0 cfg0
      ["index.html".toList, "a.html".toList, "b.html".toList] []
      ("c.html".toList) ("boom".toList) st0 rfl).1⟩

/-! ### Internal-link graph invariant (C8) -/

lemma styleWarns_links (href sp : Str) (st : SEOAuditor) :
    (styleWarns href sp st).internal_links = st.internal_links := by
  simp only [styleWarns]
  split_ifs <;> simp [add_issue]

lemma normalizedKey_isFile {w : World} {lt k : Str} (h : normalizedKey w lt = some k) :
    w.isFile k = true := by
  unfold normalizedKey at h
  split_ifs at h with h1 h2 h3
  · exact (Option.some.inj h) ▸ h1
  · exact (Option.some.inj h) ▸ h2
  · simp only [Bool.and_eq_true] at h3
    exact (Option.some.inj h) ▸ h3.2

lemma normalizedKey_linkExists {w : World} {lt k : Str}
    (hk : normalizedKey w lt = some k) : linkExists w lt = true := by
  unfold normalizedKey at hk
  unfold linkExists
  split_ifs at hk with h1 h2 h3
  · simp [h1]
  · simp [h2]
  · simp [h3]

lemma graphLookup_insert (g : List (Str × List Str)) (k src k' : Str) :
    graphLookup (graphInsert g k src) k'
      = if k = k' then some ((graphLookup g k').getD [] ++ [src])
        else graphLookup g k' := by
  induction g with
  | nil =>
    by_cases hk : k = k' <;>
      simp [graphInsert, graphLookup, hk]
  | cons e rest ih =>
    by_cases he : e.1 = k
    · by_cases hk : k = k'
      · subst hk
        simp [graphInsert, he, graphLookup]
      · have hek : ¬ e.1 = k' := fun h => hk (he ▸ h)
        simp [graphInsert, he, graphLookup, hk, hek]
    · by_cases hek : e.1 = k'
      · have hk : ¬ k = k' := fun h => he (h ▸ hek)
        have hk2 : ¬ k' = k := fun h => hk h.symm
        simp [graphInsert, he, graphLookup, hek, hk, hk2]
      · simp [graphInsert, he, graphLookup, hek, ih]

lemma graphInsert_mem_cases (g : List (Str × List Str)) (k src : Str) :
    ∀ e' ∈ graphInsert g k src,
      e' ∈ g ∨ (e'.1 = k ∧ ∃ l, e'.2 = l ++ [src]) := by
  induction g with
  | nil =>
    intro e' he'
    simp only [graphInsert, List.mem_singleton] at he'
    subst he'
    exact Or.inr ⟨rfl, [], rfl⟩
  | cons e rest ih =>
    intro e' he'
    simp only [graphInsert] at he'
    split_ifs at he' with he
    · rcases List.mem_cons.1 he' with h | h
      · subst h
        exact Or.inr ⟨he, e.2, rfl⟩
      · exact Or.inl (List.mem_cons_of_mem _ h)
    · rcases List.mem_cons.1 he' with h | h
      · subst h
        exact Or.inl (List.mem_cons_self _ _)
      · rcases ih e' h with h1 | h1
        · exact Or.inl (List.mem_cons_of_mem _ h1)
        · exact Or.inr h1

lemma keysOK_insert {w : World} {g : List (Str × List Str)} {k src : Str}
    (hg : KeysOK w g) (hk : w.isFile k = true) : KeysOK w (graphInsert g k src) := by
  intro e' he'
  rcases graphInsert_mem_cases g k src e' he' with h | ⟨h1, l, h2⟩
  · exact hg e' h
  · refine ⟨h1 ▸ hk, ?_⟩
    rw [h2]
    simp

lemma analyze_links_cases (w : World) (href sp : Str) (st : SEOAuditor) :
    (analyze_internal_link w href sp st).internal_links = st.internal_links ∨
    ∃ k, normalizedKey w (localTarget href sp) = some k ∧
      (analyze_internal_link w href sp st).internal_links
        = graphInsert st.internal_links k sp := by
  simp only [analyze_internal_link]
  split_ifs
  · exact Or.inl (by rw [add_issue_links, styleWarns_links])
  · cases hk : normalizedKey w (localTarget href sp) with
    | some k => exact Or.inr ⟨k, rfl, by rw [styleWarns_links]⟩
    | none => exact Or.inl (styleWarns_links href sp st)

lemma analyze_keysOK (w : World) (href sp : Str) (st : SEOAuditor)
    (h : KeysOK w st.internal_links) :
    KeysOK w (analyze_internal_link w href sp st).internal_links := by
  rcases analyze_links_cases w href sp st with hc | ⟨k, hk, hc⟩ <;> rw [hc]
  · exact h
  · exact keysOK_insert h (normalizedKey_isFile hk)

lemma sourcesAt_insert_mono {g : List (Str × List Str)} {x k' : Str} (k src : Str)
    (h : x ∈ sourcesAt g k') : x ∈ sourcesAt (graphInsert g k src) k' := by
  unfold sourcesAt at h ⊢
  rw [graphLookup_insert]
  split_ifs with hk
  · subst hk
    simp only [Option.getD_some]
    exact List.mem_append_left _ h
  · exact h

lemma analyze_sources_mono (w : World) (href sp : Str) (st : SEOAuditor)
    (x k' : Str) (h : x ∈ sourcesAt st.internal_links k') :
    x ∈ sourcesAt (analyze_internal_link w href sp st).internal_links k' := by
  rcases analyze_links_cases w href sp st with hc | ⟨k, hk, hc⟩ <;> rw [hc]
  · exact h
  · exact sourcesAt_insert_mono k sp h

lemma analyze_sources_self (w : World) (href sp : Str) (st : SEOAuditor) (k : Str)
    (hk : normalizedKey w (localTarget href sp) = some k) :
    sp ∈ sourcesAt (analyze_internal_link w href sp st).internal_links k := by
  have hex := normalizedKey_linkExists hk
  have hred : (analyze_internal_link w href sp st).internal_links
      = graphInsert (styleWarns href sp st).internal_links k sp := by
    simp only [analyze_internal_link]
    rw [if_neg (show ¬(!linkExists w (localTarget href sp)) = true by simp [hex]), hk]
  rw [hred, styleWarns_links]
  unfold sourcesAt
  rw [graphLookup_insert, if_pos rfl]
  simp

lemma analyzeFold_mono (w : World) (L : List (Str × Str)) (x k : Str) :
    ∀ st : SEOAuditor, x ∈ sourcesAt st.internal_links k →
      x ∈ sourcesAt (analyzeFold w L st).internal_links k := by
  intro st h
  exact foldl_inv (fun s => x ∈ sourcesAt s.internal_links k) _ L
    (fun s p hs => analyze_sources_mono w p.2 p.1 s x k hs) st h

lemma analyzeFold_keysOK (w : World) (L : List (Str × Str)) (st : SEOAuditor)
    (h : KeysOK w st.internal_links) : KeysOK w (analyzeFold w L st).internal_links :=
  foldl_inv (fun s => KeysOK w s.internal_links) _ L
    (fun s p hs => analyze_keysOK w p.2 p.1 s hs) st h

lemma analyzeFold_sources (w : World) (L : List (Str × Str)) :
    ∀ st : SEOAuditor, ∀ p ∈ L, ∀ k : Str,
      normalizedKey w (localTarget p.2 p.1) = some k →
      p.1 ∈ sourcesAt (analyzeFold w L st).internal_links k := by
  induction L with
  | nil => intro st p hp; cases hp
  | cons q t ih =>
    intro st p hp k hk
    rcases List.mem_cons.1 hp with h | h
    · subst h
      exact analyzeFold_mono w t p.1 k _ (analyze_sources_self w p.2 p.1 st k hk)
    · exact ih _ p h k hk

lemma processHref_keysOK (w : World) (cfg : AuditConfig) (rel : Str) (st : SEOAuditor)
    (raw : Str) (h : KeysOK w st.internal_links) :
    KeysOK w (processHref w cfg rel st raw).internal_links := by
  simp only [processHref]
  split_ifs <;>
    first
      | exact h
      | (rw [add_issue_links]; exact analyze_keysOK _ _ _ _ h)
      | exact analyze_keysOK _ _ _ _ h

lemma audit_file_keysOK (w : World) (cfg : AuditConfig) (f : Str) (st : SEOAuditor)
    (h : KeysOK w st.internal_links) :
    KeysOK w (audit_file w cfg f st).internal_links := by
  simp only [audit_file]
  cases hdoc : w.docs f with
  | error e => rw [add_issue_links]; exact h
  | ok doc =>
    refine foldl_inv (fun s => KeysOK w s.internal_links) _ _
      (fun s a hs => processHref_keysOK w cfg f s a hs) _ ?_
    show KeysOK w (check_semantics doc f st).internal_links
    rw [(semantics_pres doc f st).2.1]
    exact h

/-- C8: (i) after any sequence of internal-link analyses starting from a state
whose graph satisfies the invariant, every key of the graph is the canonical
path of an existing file with a nonempty inbound list; (ii) the source of
every link of the sequence that resolved to a canonical key is in that key's
inbound list; (iii) the completed run's graph satisfies the invariant. -/
theorem C8_graph_invariant (w : World) (cfg : AuditConfig) (files : List Str)
    (L : List (Str × Str)) (st : SEOAuditor) (h0 : KeysOK w st.internal_links) :
    KeysOK w (analyzeFold w L st).internal_links ∧
    (∀ p ∈ L, ∀ k : Str, normalizedKey w (localTarget p.2 p.1) = some k →
      p.1 ∈ sourcesAt (analyzeFold w L st).internal_links k) ∧
    KeysOK w (run_audit w cfg files).internal_links := by
  refine ⟨analyzeFold_keysOK w L st h0, analyzeFold_sources w L st, ?_⟩
  rw [run_links]
  exact foldl_inv (fun s => KeysOK w s.internal_links) _ files
    (fun s a hs => audit_file_keysOK w cfg a s hs) _
    (fun e he => absurd he (List.not_mem_nil e))

/-- Witness for C8: two concrete link analyses on the concrete site, and the
completed concrete run. -/
theorem C8_graph_invariant_witness :
    KeysOK w0 st0.internal_links ∧
    (KeysOK w0 (analyzeFold w0
        [("index.html".toList, "/a.html".toList), ("a.html".toList, "/b".toList)]
        st0).internal_links ∧
      (∀ p ∈ [("index.html".toList, "/a.html".toList), ("a.html".toList, "/b".toList)],
        ∀ k : Str, normalizedKey w0 (localTarget p.2 p.1) = some k →
          p.1 ∈ sourcesAt (analyzeFold w0
            [("index.html".toList, "/a.html".toList), ("a.html".toList, "/b".toList)]
            st0).internal_links k) ∧
      KeysOK w0 (run_audit w0 cfg0 fsFiles).internal_links) :=
  ⟨fun e he => absurd he (List.not_mem_nil e),
    C8_graph_invariant w0 cfg0 fsFiles
      [("index.html".toList, "/a.html".toList), ("a.html".toList, "/b".toList)]
      st0 (fun e he => absurd he (List.not_mem_nil e))⟩

/-! ### Fragment and query suffixes (C5) -/

lemma takeWhile_all (p : Char → Bool) (l : Str) (h : ∀ a ∈ l, p a = true) :
    l.takeWhile p = l := by
  induction l with
  | nil => rfl
  | cons a t ih =>
    rw [List.takeWhile_cons, h a (List.mem_cons_self a t)]
    simp only [if_true]
    rw [ih (fun b hb => h b (List.mem_cons_of_mem a hb))]

lemma takeWhile_append_stop (p : Char → Bool) (l : Str) (h : ∀ a ∈ l, p a = true)
    (c : Char) (hc : p c = false) (rest : Str) :
    (l ++ c :: rest).takeWhile p = l := by
  induction l with
  | nil => simp [List.takeWhile_cons, hc]
  | cons a t ih =>
    rw [List.cons_append, List.takeWhile_cons, h a (List.mem_cons_self a t)]
    simp only [if_true]
    rw [ih (fun b hb => h b (List.mem_cons_of_mem a hb))]

lemma stripFrag_chars (h : Str) (hnf : ('#') ∉ h) (hnq : ('?') ∉ h) :
    ∀ a ∈ h, (a != '#' && a != '?') = true := by
  intro a ha
  simp only [Bool.and_eq_true, bne_iff_ne]
  exact ⟨fun he => hnf (he ▸ ha), fun he => hnq (he ▸ ha)⟩

lemma localTarget_congr {h1 h2 : Str} (src : Str)
    (he : stripFragQuery h1 = stripFragQuery h2) :
    localTarget h1 src = localTarget h2 src := by
  unfold localTarget
  rw [he]

lemma linkExists_false_key {w : World} {lt : Str} (hex : linkExists w lt = false) :
    normalizedKey w lt = none := by
  unfold linkExists at hex
  unfold normalizedKey
  split_ifs with h1 h2 h3
  · rw [h1] at hex; simp at hex
  · rw [h2] at hex; simp at hex
  · rw [h3] at hex; simp at hex
  · rfl

lemma analyze_links_fn (w : World) (href sp : Str) (st : SEOAuditor) :
    (analyze_internal_link w href sp st).internal_links
      = match normalizedKey w (localTarget href sp) with
        | some k => graphInsert st.internal_links k sp
        | none => st.internal_links := by
  by_cases hex : linkExists w (localTarget href sp) = true
  · simp only [analyze_internal_link]
    rw [if_neg (show ¬(!linkExists w (localTarget href sp)) = true by simp [hex])]
    cases hk : normalizedKey w (localTarget href sp) with
    | some k =>
      show graphInsert (styleWarns href sp st).internal_links k sp = _
      rw [styleWarns_links]
    | none => exact styleWarns_links href sp st
  · have hex' : linkExists w (localTarget href sp) = false := by
      cases hq : linkExists w (localTarget href sp)
      · rfl
      · exact absurd hq hex
    rw [linkExists_false_key hex']
    simp only [analyze_internal_link]
    rw [if_pos (show (!linkExists w (localTarget href sp)) = true by simp [hex']),
      add_issue_links, styleWarns_links]

lemma isSub_of_mem (c : Char) (l : Str) (h : c ∈ l) : isSub ([c]) l = true := by
  induction l with
  | nil => cases h
  | cons a t ih =>
    rcases List.mem_cons.1 h with h1 | h1
    · subst h1
      simp [isSub, isPre]
    · simp [isSub, ih h1]

lemma hash_ignored (b : Str) (kw : List Str) (href : Str) (hm : ('#') ∈ href) :
    should_ignore_url (mkConfig b kw) href = true := by
  unfold should_ignore_url mkConfig defaultIgnoreUrls
  simp only [List.any_eq_true]
  refine ⟨"#".toList, by decide, ?_⟩
  have : isSub ("#".toList) href = true := isSub_of_mem '#' href hm
  rw [this]
  simp

lemma processHref_skip (w : World) (cfg : AuditConfig) (rel : Str) (st : SEOAuditor)
    (raw : Str) (hig : should_ignore_url cfg (pyStrip raw) = true) :
    processHref w cfg rel st raw = st := by
  simp only [processHref]
  rw [if_pos (show ((pyStrip raw).isEmpty || should_ignore_url cfg (pyStrip raw)) = true
    by simp [hig])]

/-- C5 counterexample: a href with a `#` suffix does not behave like its
stripped form.  `/missing#x` is skipped entirely (no dead-link issue, state
unchanged) while `/missing` is flagged dead; `/b#x` records no graph entry
while `/b` records `b.html ← a.html`. -/
theorem C5_fragment_counterexample :
    countIssue ⟨errorLit, deadMsg ("/missing#x".toList), "a.html".toList⟩
        (processHref w0 cfg0 ("a.html".toList) st0 ("/missing#x".toList)).issues = 0 ∧
    processHref w0 cfg0 ("a.html".toList) st0 ("/missing#x".toList) = st0 ∧
    countIssue ⟨errorLit, deadMsg ("/missing".toList), "a.html".toList⟩
        (processHref w0 cfg0 ("a.html".toList) st0 ("/missing".toList)).issues = 1 ∧
    (processHref w0 cfg0 ("a.html".toList) st0 ("/b#x".toList)).internal_links = [] ∧
    (processHref w0 cfg0 ("a.html".toList) st0 ("/b".toList)).internal_links
      = [("b.html".toList, ["a.html".toList])] :=
  ⟨by decide, by decide, by decide, by decide, by decide⟩

/-- C5 amended: stripping a `?` suffix from a href whose base has no `#`/`?`
does not affect file identity in the resolver (same stripped path, same
`linkExists` outcome, same canonical key, same graph update); `#` is also
stripped by the resolver, but a href containing `#` anywhere never reaches the
resolver: the default ignore-URL rule `#` matches by substring, so extraction
skips such a href entirely. -/
theorem C5_strip_suffix (w : World) (b : Str) (kw : List Str)
    (h rest src raw : Str) (st : SEOAuditor)
    (hnf : ('#') ∉ h) (hnq : ('?') ∉ h) (hfrag : ('#') ∈ pyStrip raw) :
    stripFragQuery (h ++ '?' :: rest) = h ∧
    stripFragQuery (h ++ '#' :: rest) = h ∧
    stripFragQuery h = h ∧
    linkExists w (localTarget (h ++ '?' :: rest) src)
      = linkExists w (localTarget h src) ∧
    normalizedKey w (localTarget (h ++ '?' :: rest) src)
      = normalizedKey w (localTarget h src) ∧
    (analyze_internal_link w (h ++ '?' :: rest) src st).internal_links
      = (analyze_internal_link w h src st).internal_links ∧
    processHref w (mkConfig b kw) src st raw = st := by
  have hall := stripFrag_chars h hnf hnq
  have hq : stripFragQuery (h ++ '?' :: rest) = h :=
    takeWhile_append_stop _ h hall '?' (by decide) rest
  have hf : stripFragQuery (h ++ '#' :: rest) = h :=
    takeWhile_append_stop _ h hall '#' (by decide) rest
  have hh : stripFragQuery h = h := takeWhile_all _ h hall
  have hlt : localTarget (h ++ '?' :: rest) src = localTarget h src :=
    localTarget_congr src (hq.trans hh.symm)
  refine ⟨hq, hf, hh, by rw [hlt], by rw [hlt], ?_, ?_⟩
  · rw [analyze_links_fn, analyze_links_fn, hlt]
  · exact processHref_skip w _ src st raw (hash_ignored b kw _ hfrag)

/-- Witness for C5 amended: `/missing` with a `?x` suffix, and the skipped
fragment href `/page#sec`. -/
theorem C5_strip_suffix_witness :
    (('#') ∉ "/missing".toList ∧ ('?') ∉ "/missing".toList ∧
      ('#') ∈ pyStrip ("/page#sec".toList)) ∧
    (stripFragQuery ("/missing".toList ++ '?' :: "x".toList) = "/missing".toList ∧
      stripFragQuery ("/missing".toList ++ '#' :: "x".toList) = "/missing".toList ∧
      stripFragQuery ("/missing".toList) = "/missing".toList ∧
      linkExists w0 (localTarget ("/missing".toList ++ '?' :: "x".toList)
          ("a.html".toList))
        = linkExists w0 (localTarget ("/missing".toList) ("a.html".toList)) ∧
      normalizedKey w0 (localTarget ("/missing".toList ++ '?' :: "x".toList)
          ("a.html".toList))
        = normalizedKey w0 (localTarget ("/missing".toList) ("a.html".toList)) ∧
      (analyze_internal_link w0 ("/missing".toList ++ '?' :: "x".toList)
          ("a.html".toList) st0).internal_links
        = (analyze_internal_link w0 ("/missing".toList) ("a.html".toList)
            st0).internal_links ∧
      processHref w0 (mkConfig [] []) ("a.html".toList) st0 ("/page#sec".toList)
        = st0) :=
  ⟨⟨by decide, by decide, by decide⟩,
    C5_strip_suffix w0 [] [] ("/missing".toList) ("x".toList) ("a.html".toList)
      ("/page#sec".toList) st0 (by decide) (by decide) (by decide)⟩

/-! ### The issue record and its fields (C9) -/

lemma foldl_inv_mem {α : Type} (P : SEOAuditor → Prop) (f : SEOAuditor → α → SEOAuditor)
    (l : List α) (h : ∀ st a, a ∈ l → P st → P (f st a)) :
    ∀ st, P st → P (l.foldl f st) := by
  induction l with
  | nil => intro st hp; exact hp
  | cons a t ih =>
    intro st hp
    exact ih (fun st' b hb hp' => h st' b (List.mem_cons_of_mem a hb) hp') _
      (h st a (List.mem_cons_self a t) hp)

lemma issueWF_add {files : List Str} {st : SEOAuditor}
    (h : ∀ i ∈ st.issues, IssueWF files i) (l m c : Str) (p : Int)
    (hl : l = errorLit ∨ l = warnLit) (hc : c = globalLit ∨ c ∈ files) :
    ∀ i ∈ (add_issue st l m c p).issues, IssueWF files i := by
  intro i hi
  simp only [add_issue, List.mem_append, List.mem_singleton] at hi
  rcases hi with hi | hi
  · exact h i hi
  · subst hi
    exact ⟨hl, hc⟩

lemma analyze_issues_cases (w : World) (href sp : Str) (st : SEOAuditor) :
    (analyze_internal_link w href sp st).issues = (styleWarns href sp st).issues ∨
    (analyze_internal_link w href sp st).issues
      = (add_issue (styleWarns href sp st) errorLit (deadMsg href) sp (-10)).issues := by
  simp only [analyze_internal_link]
  split_ifs
  · exact Or.inr rfl
  · split
    · exact Or.inl rfl
    · exact Or.inl rfl

lemma styleWarns_issueWF {files : List Str} (href sp : Str) (st : SEOAuditor)
    (hc : sp = globalLit ∨ sp ∈ files) (h : ∀ i ∈ st.issues, IssueWF files i) :
    ∀ i ∈ (styleWarns href sp st).issues, IssueWF files i := by
  simp only [styleWarns]
  split_ifs <;>
    first
      | exact h
      | exact issueWF_add h _ _ _ _ (Or.inr rfl) hc
      | exact issueWF_add (issueWF_add h _ _ _ _ (Or.inr rfl) hc) _ _ _ _ (Or.inr rfl) hc

lemma analyze_issueWF {files : List Str} (w : World) (href sp : Str) (st : SEOAuditor)
    (hc : sp = globalLit ∨ sp ∈ files) (h : ∀ i ∈ st.issues, IssueWF files i) :
    ∀ i ∈ (analyze_internal_link w href sp st).issues, IssueWF files i := by
  intro i hi
  rcases analyze_issues_cases w href sp st with hc2 | hc2
  · rw [hc2] at hi
    exact styleWarns_issueWF href sp st hc h i hi
  · rw [hc2] at hi
    exact issueWF_add (styleWarns_issueWF href sp st hc h) _ _ _ _ (Or.inl rfl) hc i hi

lemma semantics_issueWF {files : List Str} (doc : Doc) (rel : Str) (st : SEOAuditor)
    (hc : rel = globalLit ∨ rel ∈ files) (h : ∀ i ∈ st.issues, IssueWF files i) :
    ∀ i ∈ (check_semantics doc rel st).issues, IssueWF files i := by
  simp only [check_semantics]
  split_ifs <;>
    first
      | exact h
      | exact issueWF_add h _ _ _ _ (Or.inr rfl) hc
      | exact issueWF_add h _ _ _ _ (Or.inl rfl) hc
      | exact issueWF_add (issueWF_add h _ _ _ _ (Or.inl rfl) hc) _ _ _ _ (Or.inr rfl) hc
      | exact issueWF_add (issueWF_add h _ _ _ _ (Or.inr rfl) hc) _ _ _ _ (Or.inr rfl) hc

lemma processHref_issueWF {files : List Str} (w : World) (cfg : AuditConfig)
    (rel : Str) (st : SEOAuditor) (raw : Str)
    (hc : rel = globalLit ∨ rel ∈ files) (h : ∀ i ∈ st.issues, IssueWF files i) :
    ∀ i ∈ (processHref w cfg rel st raw).issues, IssueWF files i := by
  simp only [processHref]
  split_ifs <;>
    first
      | exact h
      | exact issueWF_add (analyze_issueWF w _ rel st hc h) _ _ _ _ (Or.inr rfl) hc
      | exact analyze_issueWF w _ rel st hc h

lemma audit_file_issueWF {files : List Str} (w : World) (cfg : AuditConfig)
    (f : Str) (st : SEOAuditor) (hc : f = globalLit ∨ f ∈ files)
    (h : ∀ i ∈ st.issues, IssueWF files i) :
    ∀ i ∈ (audit_file w cfg f st).issues, IssueWF files i := by
  simp only [audit_file]
  cases hdoc : w.docs f with
  | error e => exact issueWF_add h _ _ _ _ (Or.inl rfl) hc
  | ok doc =>
    exact foldl_inv (fun s => ∀ i ∈ s.issues, IssueWF files i) _ _
      (fun s a hs => processHref_issueWF w cfg f s a hc hs) _
      (semantics_issueWF doc f st hc h)

lemma orphanStep_issueWF {files : List Str} (cfg : AuditConfig) (st : SEOAuditor)
    (f : Str) (hc : f = globalLit ∨ f ∈ files)
    (h : ∀ i ∈ st.issues, IssueWF files i) :
    ∀ i ∈ (orphanStep cfg st f).issues, IssueWF files i := by
  simp only [orphanStep]
  split_ifs <;>
    first
      | exact h
      | exact issueWF_add h _ _ _ _ (Or.inr rfl) hc

lemma externalStep_issueWF {files : List Str} (w : World) (st : SEOAuditor) (u : Str)
    (h : ∀ i ∈ st.issues, IssueWF files i) :
    ∀ i ∈ (externalStep w st u).issues, IssueWF files i := by
  simp only [externalStep]
  cases hp : w.probe u with
  | ok c =>
    dsimp only
    split_ifs
    · exact issueWF_add h errorLit (extDeadMsg c u) globalLit (-5) (Or.inl rfl)
        (Or.inl rfl)
    · exact h
  | error e =>
    exact issueWF_add h warnLit (extFailMsg u e) globalLit 0 (Or.inr rfl) (Or.inl rfl)

/-- C9 counterexample: two `_add_issue` calls differing only in the penalty
argument append identical issue records while changing the score differently:
the recorded issue does not carry a penalty field. -/
theorem C9_no_penalty_field :
    ((add_issue st0 warnLit ("m".toList) ("ctx".toList) 0).issues.getLastD
        ⟨[], [], []⟩
      = (add_issue st0 warnLit ("m".toList) ("ctx".toList) (-2)).issues.getLastD
        ⟨[], [], []⟩) ∧
    (add_issue st0 warnLit ("m".toList) ("ctx".toList) 0).issues
      = (add_issue st0 warnLit ("m".toList) ("ctx".toList) (-2)).issues ∧
    (add_issue st0 warnLit ("m".toList) ("ctx".toList) 0).score
      ≠ (add_issue st0 warnLit ("m".toList) ("ctx".toList) (-2)).score :=
  ⟨rfl, rfl, by decide⟩

/-- C9 amended: every recorded issue carries the three stored fields with a
level that is ERROR or WARN and a context that is "GLOBAL" or a discovered
document path; the penalty argument of every recording is ≤ 0 and is applied
to the running score, but it is not stored on the issue record. -/
theorem C9_issue_fields (w : World) (cfg : AuditConfig) (files : List Str) :
    (∀ i ∈ (run_audit w cfg files).issues, IssueWF files i) ∧
    (∀ p ∈ (run_audit w cfg files).penalty_log, p ≤ 0) := by
  constructor
  · have h1 : ∀ i ∈ (audit_phase w cfg files (initAuditor files)).issues,
        IssueWF files i := by
      unfold audit_phase
      exact foldl_inv_mem (fun s => ∀ i ∈ s.issues, IssueWF files i) _ files
        (fun s a ha hs => audit_file_issueWF w cfg a s (Or.inr ha) hs) _
        (fun i hi => absurd hi (List.not_mem_nil i))
    have hfiles : (audit_phase w cfg files (initAuditor files)).files = files := by
      rw [(audit_phase_pres w cfg files (initAuditor files)).1]
      rfl
    have h2 : ∀ i ∈ (check_orphans cfg
        (audit_phase w cfg files (initAuditor files))).issues, IssueWF files i := by
      unfold check_orphans
      rw [hfiles]
      exact foldl_inv_mem (fun s => ∀ i ∈ s.issues, IssueWF files i) _ files
        (fun s a ha hs => orphanStep_issueWF cfg s a (Or.inr ha) hs) _ h1
    show ∀ i ∈ (check_external_links w (check_orphans cfg
      (audit_phase w cfg files (initAuditor files)))).issues, IssueWF files i
    unfold check_external_links
    exact foldl_inv (fun s => ∀ i ∈ s.issues, IssueWF files i) _ _
      (fun s a hs => externalStep_issueWF w s a hs) _ h2
  · intro p hp
    rcases run_penVals w cfg files p hp with h | h | h | h <;> omega

/-- Witness for C9 at the concrete site: the orphan issue recorded for
`c.html` is well-formed, and the recorded penalty −5 is ≤ 0. -/
theorem C9_issue_fields_witness :
    ((⟨warnLit, orphanLit, "c.html".toList⟩ : Issue) ∈ R0.issues ∧
      IssueWF fsFiles ⟨warnLit, orphanLit, "c.html".toList⟩) ∧
    ((-5 : Int) ∈ R0.penalty_log ∧ (-5 : Int) ≤ 0) :=
  ⟨⟨by decide,
    (C9_issue_fields w0 cfg0 fsFiles).1 ⟨warnLit, orphanLit, "c.html".toList⟩
      (by decide)⟩,
   ⟨by decide, (C9_issue_fields w0 cfg0 fsFiles).2 (-5) (by decide)⟩⟩

end Audit
